import Mathlib

/-!
# GoS1 parser: translation of Go syntax trees into the tagged IR

A shallow embedding of `parser.go`.  Every `parseX` function of the source is a
Lean function of the same name.  The IR nodes the source builds as
`map[string]interface{}` values are association lists in source order of the
map literal.  A Go run-time panic (nil dereference, index out of range, failed
type assertion) is an `Except.error`.
-/

namespace GoS1

/-! ## go/token -/

namespace token

/-- The token kinds of `go/token`, in declaration order. -/
inductive Token where
  | ILLEGAL | EOF | COMMENT
  | IDENT | INT | FLOAT | IMAG | CHAR | STRING
  | ADD | SUB | MUL | QUO | REM
  | AND | OR | XOR | SHL | SHR | AND_NOT
  | ADD_ASSIGN | SUB_ASSIGN | MUL_ASSIGN | QUO_ASSIGN | REM_ASSIGN
  | AND_ASSIGN | OR_ASSIGN | XOR_ASSIGN | SHL_ASSIGN | SHR_ASSIGN | AND_NOT_ASSIGN
  | LAND | LOR | ARROW | INC | DEC
  | EQL | LSS | GTR | ASSIGN | NOT
  | NEQ | LEQ | GEQ | DEFINE | ELLIPSIS
  | LPAREN | LBRACK | LBRACE | COMMA | PERIOD
  | RPAREN | RBRACK | RBRACE | SEMICOLON | COLON
  | BREAK | CASE | CHAN | CONST | CONTINUE
  | DEFAULT | DEFER | ELSE | FALLTHROUGH | FOR
  | FUNC | GO | GOTO | IF | IMPORT
  | INTERFACE | MAP | PACKAGE | RANGE | RETURN
  | SELECT | STRUCT | SWITCH | TYPE | VAR
  | TILDE
  deriving DecidableEq, Repr

/-- The method `Token.String` of `go/token`: the operator or keyword text, or the
name of the constant for the literal classes. -/
def Token.String : Token → String
  | .ILLEGAL => "ILLEGAL" | .EOF => "EOF" | .COMMENT => "COMMENT"
  | .IDENT => "IDENT" | .INT => "INT" | .FLOAT => "FLOAT" | .IMAG => "IMAG"
  | .CHAR => "CHAR" | .STRING => "STRING"
  | .ADD => "+" | .SUB => "-" | .MUL => "*" | .QUO => "/" | .REM => "%"
  | .AND => "&" | .OR => "|" | .XOR => "^" | .SHL => "<<" | .SHR => ">>" | .AND_NOT => "&^"
  | .ADD_ASSIGN => "+=" | .SUB_ASSIGN => "-=" | .MUL_ASSIGN => "*=" | .QUO_ASSIGN => "/="
  | .REM_ASSIGN => "%="
  | .AND_ASSIGN => "&=" | .OR_ASSIGN => "|=" | .XOR_ASSIGN => "^=" | .SHL_ASSIGN => "<<="
  | .SHR_ASSIGN => ">>=" | .AND_NOT_ASSIGN => "&^="
  | .LAND => "&&" | .LOR => "||" | .ARROW => "<-" | .INC => "++" | .DEC => "--"
  | .EQL => "==" | .LSS => "<" | .GTR => ">" | .ASSIGN => "=" | .NOT => "!"
  | .NEQ => "!=" | .LEQ => "<=" | .GEQ => ">=" | .DEFINE => ":=" | .ELLIPSIS => "..."
  | .LPAREN => "(" | .LBRACK => "[" | .LBRACE => "\x7b" | .COMMA => "," | .PERIOD => "."
  | .RPAREN => ")" | .RBRACK => "]" | .RBRACE => "\x7d" | .SEMICOLON => ";" | .COLON => ":"
  | .BREAK => "break" | .CASE => "case" | .CHAN => "chan" | .CONST => "const"
  | .CONTINUE => "continue"
  | .DEFAULT => "default" | .DEFER => "defer" | .ELSE => "else"
  | .FALLTHROUGH => "fallthrough" | .FOR => "for"
  | .FUNC => "func" | .GO => "go" | .GOTO => "goto" | .IF => "if" | .IMPORT => "import"
  | .INTERFACE => "interface" | .MAP => "map" | .PACKAGE => "package" | .RANGE => "range"
  | .RETURN => "return"
  | .SELECT => "select" | .STRUCT => "struct" | .SWITCH => "switch" | .TYPE => "type"
  | .VAR => "var"
  | .TILDE => "~"

/-- A source position, `token.Pos`; `NoPos` is zero. -/
abbrev Pos := Int

/-- The zero position: no position. -/
def NoPos : Pos := 0

/-- The method `Pos.IsValid`: the position is not `NoPos`. -/
def Pos.IsValid (p : Pos) : Bool := p != NoPos

end token

open token (Token)

/-! ## go/ast -/

namespace ast

/-- An identifier, `*ast.Ident`. -/
structure Ident where
  Name : String
  deriving DecidableEq, Repr

/-- A literal of basic type, `*ast.BasicLit`. -/
structure BasicLit where
  Kind : Token
  Value : String
  deriving DecidableEq, Repr

mutual

/-- A non-nil `ast.Node` interface value, by dynamic type.  `Other` stands for every
node type the dispatch of `parseAst` does not name; it carries the type name. -/
inductive Node where
  | ExprStmt (t : ExprStmt)
  | BasicLit (t : BasicLit)
  | FuncLit (t : FuncLit)
  | Ident (t : Ident)
  | BinaryExpr (t : BinaryExpr)
  | UnaryExpr (t : UnaryExpr)
  | ParenExpr (t : ParenExpr)
  | DeclStmt (t : DeclStmt)
  | GenDecl (t : GenDecl)
  | FuncDecl (t : FuncDecl)
  | AssignStmt (t : AssignStmt)
  | FuncType (t : FuncType)
  | BlockStmt (t : BlockStmt)
  | CallExpr (t : CallExpr)
  | ReturnStmt (t : ReturnStmt)
  | IfStmt (t : IfStmt)
  | GoStmt (t : GoStmt)
  | Other (typeName : String)

/-- An expression used as a statement. -/
inductive ExprStmt where
  | mk (X : Node)

/-- A function literal; type and body are always present. -/
inductive FuncLit where
  | mk (Type_ : FuncType) (Body : BlockStmt)

/-- A binary expression. -/
inductive BinaryExpr where
  | mk (X : Node) (Op : Token) (Y : Node)

/-- A unary expression. -/
inductive UnaryExpr where
  | mk (Op : Token) (X : Node)

/-- A parenthesized expression. -/
inductive ParenExpr where
  | mk (X : Node)

/-- A declaration in a statement list. -/
inductive DeclStmt where
  | mk (Decl : Node)

/-- An import, constant, type or variable declaration; `Lparen` is the position of
the opening parenthesis, if any. -/
inductive GenDecl where
  | mk (Lparen : token.Pos) (Tok : Token) (Specs : List Spec)

/-- The `ast.Spec` interface: one of the three spec node types.  Only the value
spec is inspected by the translator. -/
inductive Spec where
  | ValueSpec (t : ValueSpec)
  | ImportSpec
  | TypeSpec

/-- A constant or variable specification; `Type_` is `none` when the type is omitted. -/
inductive ValueSpec where
  | mk (Names : List Ident) (Type_ : Option Node) (Values : List Node)

/-- A function declaration; `Recv` is `none` for functions, `Body` is `none` for a
declaration without body (external function). -/
inductive FuncDecl where
  | mk (Recv : Option FieldList) (Name : Ident) (Type_ : FuncType) (Body : Option BlockStmt)

/-- An assignment or short variable declaration. -/
inductive AssignStmt where
  | mk (Lhs : List Node) (Tok : Token) (Rhs : List Node)

/-- A function type; each of the three lists is `none` when the pointer is nil. -/
inductive FuncType where
  | mk (TypeParams : Option FieldList) (Params : Option FieldList) (Results : Option FieldList)

/-- A list of fields enclosed by parentheses; a nil slice is the empty list. -/
inductive FieldList where
  | mk (List_ : List Field)

/-- A field group: the names (none for an unnamed parameter or result) and their type. -/
inductive Field where
  | mk (Names : List Ident) (Type_ : Node)

/-- A braced statement list. -/
inductive BlockStmt where
  | mk (List_ : List Node)

/-- A call expression. -/
inductive CallExpr where
  | mk (Fun : Node) (Args : List Node)

/-- A return statement. -/
inductive ReturnStmt where
  | mk (Results : List Node)

/-- A conditional; `Init` and `Else` are `none` when absent. -/
inductive IfStmt where
  | mk (Init : Option Node) (Cond : Node) (Body : BlockStmt) (Else : Option Node)

/-- A go statement. -/
inductive GoStmt where
  | mk (Call : CallExpr)

end

/-- Field `Names` of a field group. -/
def Field.Names : Field → List Ident
  | .mk names _ => names

/-- Field `Type` of a field group. -/
def Field.Type_ : Field → Node
  | .mk _ ty => ty

end ast

/-! ## The IR -/

/-- A 64-bit floating-point value, given by its bit pattern. -/
structure Float64 where
  bits : Nat
  deriving DecidableEq, Repr

mutual

/-- An IR node, `map[string]interface{}`: the nil map (the zero value of a slice
entry never written), or the entries of a map literal in source order. -/
inductive Node where
  | nil
  | obj (entries : List (String × Value))

/-- A value stored in a node, `interface{}`. -/
inductive Value where
  | nil
  | str (s : String)
  | int (i : Int)
  | float (f : Float64)
  | node (n : Node)
  | nodes (ns : List Node)

end

/-- Lookup of a key among the entries of a map literal. -/
def lookup (key : String) : List (String × Value) → Option Value
  | [] => none
  | (k, v) :: rest => if k = key then some v else lookup key rest

/-- The entry of a node under a key, if present. -/
def Node.get? : Node → String → Option Value
  | .nil, _ => none
  | .obj entries, key => lookup key entries

/-- The index expression `m[key]`: the nil interface when the key is absent. -/
def Node.index (m : Node) (key : String) : Value :=
  (m.get? key).getD Value.nil

/-- The tag of a node: its `"tag"` entry when that is a string. -/
def Node.tag (m : Node) : Option String :=
  match m.get? "tag" with
  | some (.str s) => some s
  | _ => none

/-- The run-time panics of the translator. -/
inductive Panic where
  | nilDereference
  | indexOutOfRange
  | typeAssertion
  deriving DecidableEq, Repr

/-! ## strconv -/

namespace strconv

/-- The two error values of `strconv`. -/
inductive Err where
  | ErrSyntax
  | ErrRange
  deriving DecidableEq, Repr

/-- The text of an error value. -/
def Err.Error : Err → String
  | .ErrSyntax => "invalid syntax"
  | .ErrRange => "value out of range"

/-- The size in bits of `int` on the target of the program (js/wasm). -/
def IntSize : Nat := 64

/-- The largest `uint64`. -/
def maxUint64 : Nat := 2 ^ 64 - 1

/-- The helper `lower(c)`: `c | ('x' - 'X')`, lower-casing an ASCII letter. -/
def lower (c : Nat) : Nat := c ||| ('x'.toNat - 'X'.toNat)

/-- The outcome of the digit loop of `ParseUint`: it ran to the end with value `n`
(and whether it saw an underscore), or returned early with a value and an error. -/
inductive Scan where
  | done (n : Nat) (underscores : Bool)
  | fail (val : Nat) (err : Err)
  deriving DecidableEq, Repr

/-- The digit loop of `ParseUint` for `base0` true: `n` is the `uint64` accumulator. -/
def scanDigits (base : Nat) (cutoff maxVal : Nat) : List Nat → Nat → Bool → Scan
  | [], n, underscores => .done n underscores
  | c :: cs, n, underscores =>
    if c = '_'.toNat then scanDigits base cutoff maxVal cs n true
    else
      let digit : Option Nat :=
        if '0'.toNat ≤ c ∧ c ≤ '9'.toNat then some (c - '0'.toNat)
        else if 'a'.toNat ≤ lower c ∧ lower c ≤ 'z'.toNat then some (lower c - 'a'.toNat + 10)
        else none
      match digit with
      | none => .fail 0 .ErrSyntax
      | some d =>
        if d ≥ base then .fail 0 .ErrSyntax
        else if n ≥ cutoff then .fail maxVal .ErrRange
        else
          let n := (n * base) % 2 ^ 64
          let n1 := (n + d) % 2 ^ 64
          if n1 < n ∨ n1 > maxVal then .fail maxVal .ErrRange
          else scanDigits base cutoff maxVal cs n1 underscores

/-- The digit loop of `underscoreOK`; `saw` is the class of the last character seen:
`'^'` beginning, `'0'` digit, `'_'` underscore, `'!'` none of these. -/
def underscoreLoop (hex : Bool) : List Nat → Char → Bool
  | [], saw => saw != '_'
  | c :: cs, saw =>
    if ('0'.toNat ≤ c ∧ c ≤ '9'.toNat) ∨
        (hex = true ∧ 'a'.toNat ≤ lower c ∧ lower c ≤ 'f'.toNat) then
      underscoreLoop hex cs '0'
    else if c = '_'.toNat then
      if saw != '0' then false else underscoreLoop hex cs '_'
    else if saw == '_' then false
    else underscoreLoop hex cs '!'

/-- The helper `underscoreOK`: underscores only separate digits (a base prefix
counts as a digit). -/
def underscoreOK (s : List Nat) : Bool :=
  let s := match s with
    | c :: rest => if c = '-'.toNat ∨ c = '+'.toNat then rest else s
    | [] => s
  match s with
  | c0 :: c1 :: rest =>
    if c0 = '0'.toNat ∧
        (lower c1 = 'b'.toNat ∨ lower c1 = 'o'.toNat ∨ lower c1 = 'x'.toNat) then
      underscoreLoop (lower c1 = 'x'.toNat) rest '0'
    else underscoreLoop false s '^'
  | _ => underscoreLoop false s '^'

/-- The function `ParseUint(s, 0, 0)` on the code units of `s`: the value returned and the
error, if any. -/
def ParseUint (s : List Nat) : Nat × Option Err :=
  match s with
  | [] => (0, some .ErrSyntax)
  | c0 :: _ =>
    let s0 := s
    let (base, s) : Nat × List Nat :=
      if c0 = '0'.toNat then
        if s.length ≥ 3 ∧ (s.get? 1).map lower = some 'b'.toNat then (2, s.drop 2)
        else if s.length ≥ 3 ∧ (s.get? 1).map lower = some 'o'.toNat then (8, s.drop 2)
        else if s.length ≥ 3 ∧ (s.get? 1).map lower = some 'x'.toNat then (16, s.drop 2)
        else (8, s.drop 1)
      else (10, s)
    let cutoff := maxUint64 / base + 1
    let maxVal := 2 ^ IntSize - 1
    match scanDigits base cutoff maxVal s 0 false with
    | .fail val err => (val, some err)
    | .done n underscores =>
      if underscores ∧ ¬ underscoreOK s0 then (0, some .ErrSyntax) else (n, none)

/-- The function `Quote` on the texts the scanner yields for number literals
(letters, digits, underscores, dots and signs): the text between double quotes. -/
def Quote (s : String) : String := "\"" ++ s ++ "\""

/-- The text of a `*NumError` of `ParseInt`. -/
def NumError (num : String) (err : Err) : String :=
  "strconv.ParseInt: parsing " ++ Quote num ++ ": " ++ err.Error

/-- The function `ParseInt(s, 0, 0)`: the `int64` value, or the text of the error. -/
def ParseInt (s0 : String) : Except String Int :=
  match s0.toList.map Char.toNat with
  | [] => .error (NumError s0 .ErrSyntax)
  | c :: rest =>
    let neg : Bool := c = '-'.toNat
    let s := if c = '+'.toNat ∨ c = '-'.toNat then rest else c :: rest
    match ParseUint s with
    | (_, some .ErrSyntax) => .error (NumError s0 .ErrSyntax)
    | (un, _) =>
      let cutoff := 2 ^ (IntSize - 1)
      if ¬ neg ∧ un ≥ cutoff then .error (NumError s0 .ErrRange)
      else if neg ∧ un > cutoff then .error (NumError s0 .ErrRange)
      else if neg then .ok (-(un : Int)) else .ok (un : Int)

end strconv

/-! ## parser.go -/

/-- An error node with a diagnostic. -/
def errorNode (val : String) : Node :=
  .obj [("tag", .str "error"), ("val", .str val)]

/-- Translation of a literal; `ParseFloat` is `strconv.ParseFloat(·, 64)`. -/
def parseBasicLit (ParseFloat : String → Except String Float64) (basicLit : ast.BasicLit) :
    Node :=
  if basicLit.Kind = Token.INT then
    match strconv.ParseInt basicLit.Value with
    | .error err => .obj [("tag", .str "error"), ("val", .str err)]
    | .ok val => .obj [("tag", .str "lit"), ("kind", .str "int"), ("val", .int val)]
  else if basicLit.Kind = Token.FLOAT then
    match ParseFloat basicLit.Value with
    | .error err => .obj [("tag", .str "error"), ("val", .str err)]
    | .ok val => .obj [("tag", .str "lit"), ("kind", .str "float"), ("val", .float val)]
  else
    .obj [("tag", .str "error"),
      ("val", .str ("Unsupported literal type " ++ basicLit.Kind.String))]

/-- The blank identifier node. -/
def blankIdent : Node :=
  .obj [("tag", .str "ident"), ("val", .str "_")]

/-- Translation of an identifier. -/
def parseIdent (ident : ast.Ident) : Node :=
  .obj [("tag", .str "ident"), ("val", .str ident.Name)]

/-- A slice of `n` nil maps: `make([](map[string]interface{}), n)`. -/
def make (n : Nat) : List Node := List.replicate n Node.nil

/-- The assignment `xs[k] = v`; it panics when `k` is out of range. -/
def store (xs : List Node) (k : Nat) (v : Node) : Except Panic (List Node) :=
  if k < xs.length then .ok (xs.set k v) else .error .indexOutOfRange

/-- The index expression `xs[k]`; it panics when `k` is out of range. -/
def load (xs : List Node) (k : Nat) : Except Panic Node :=
  match xs.get? k with
  | some v => .ok v
  | none => .error .indexOutOfRange

/-- The first loop after the unnamed case of `parseFuncSignature`: the sum of the
numbers of names of the groups. -/
def numParams (fields : List ast.Field) : Nat :=
  fields.foldl (fun n field => n + field.Names.length) 0

/-- The inner loop of `parseFuncSignature`, from name index `j` on: it writes
`names[i+j]` and `types[i+j]` for each name of group `i`. -/
def writeNames (parsedTypes : List Node) (i : Nat) :
    List ast.Ident → Nat → List Node × List Node → Except Panic (List Node × List Node)
  | [], _, acc => .ok acc
  | name :: rest, j, (names, types) => do
    let names ← store names (i + j) (parseIdent name)
    let t ← load parsedTypes i
    let types ← store types (i + j) t
    writeNames parsedTypes i rest (j + 1) (names, types)

/-- The outer loop of `parseFuncSignature`, from group index `i` on. -/
def writeFields (parsedTypes : List Node) :
    List ast.Field → Nat → List Node × List Node → Except Panic (List Node × List Node)
  | [], _, acc => .ok acc
  | field :: rest, i, acc => do
    let acc ← writeNames parsedTypes i field.Names 0 acc
    writeFields parsedTypes rest (i + 1) acc

section
variable (ParseFloat : String → Except String Float64)

mutual

/-- The dispatch on the dynamic type of a syntax node.  The default arm also
prints the type to standard output, which is not part of the result. -/
def parseAst : ast.Node → Except Panic Node
  | .ExprStmt (.mk X) => parseAst X
  | .BasicLit t => .ok (parseBasicLit ParseFloat t)
  | .FuncLit t => parseFuncLit t
  | .Ident t => .ok (parseIdent t)
  | .BinaryExpr t => parseBinaryExpr t
  | .UnaryExpr t => parseUnaryExpr t
  | .ParenExpr t => parseParenExpr t
  | .DeclStmt (.mk Decl) => parseAst Decl
  | .GenDecl t => parseGenDecl t
  | .FuncDecl t => parseFuncDecl t
  | .AssignStmt t => parseAssignStmt t
  | .FuncType t => parseFuncType t
  | .BlockStmt t => parseBlockStmt t
  | .CallExpr t => parseCallExpr t
  | .ReturnStmt t => parseReturnStmt t
  | .IfStmt t => parseIfStmt t
  | .GoStmt t => parseGoStmt t
  | .Other typeName => .ok (errorNode ("Unsupported language feature: " ++ typeName))

/-- The loop `for i, x := range xs \x7b out[i] = parseAst(x) \x7d` into a slice made
with the length of `xs`: the translations in order. -/
def parseAll : List ast.Node → Except Panic (List Node)
  | [] => .ok []
  | x :: rest => do
    let y ← parseAst x
    let ys ← parseAll rest
    pure (y :: ys)

/-- The first loop of `parseFuncSignature`: `parsedTypes[i] = parseAst(field.Type)`. -/
def parseFieldTypes : List ast.Field → Except Panic (List Node)
  | [] => .ok []
  | .mk _ Type_ :: rest => do
    let t ← parseAst Type_
    let ts ← parseFieldTypes rest
    pure (t :: ts)

/-- Translation of a parameter or result list into names and types. -/
def parseFuncSignature : Option ast.FieldList → Except Panic (List Node × List Node)
  | none => .ok ([], [])
  | some (.mk fields) =>
    match fields with
    | [] => .ok ([], [])
    | first :: _ => do
      let parsedTypes ← parseFieldTypes fields
      if first.Names = [] then
        pure ([], parsedTypes)
      else
        writeFields parsedTypes fields 0 (make (numParams fields), make (numParams fields))

/-- Translation of a function type. -/
def parseFuncType : ast.FuncType → Except Panic Node
  | .mk TypeParams Params Results =>
    if TypeParams.isSome then
      .ok (.obj [("tag", .str "error"), ("val", .str "Generics not supported")])
    else do
      let (params, paramTypes) ← parseFuncSignature Params
      let (results, resultTypes) ← parseFuncSignature Results
      pure (.obj [("tag", .str "funcType"), ("params", .nodes params),
        ("paramTypes", .nodes paramTypes), ("results", .nodes results),
        ("resultTypes", .nodes resultTypes)])

/-- Translation of a function literal; the body, a non-nil block, goes through the
block arm of the dispatch. -/
def parseFuncLit : ast.FuncLit → Except Panic Node
  | .mk Type_ Body => do
    let type ← parseFuncType Type_
    let body ← parseBlockStmt Body
    pure (.obj [("tag", .str "funcLit"), ("type", .node type), ("body", .node body)])

/-- Translation of a binary expression. -/
def parseBinaryExpr : ast.BinaryExpr → Except Panic Node
  | .mk X Op Y => do
    let op1 ← parseAst X
    let op2 ← parseAst Y
    pure (.obj [("tag", .str "binop"), ("op", .str Op.String), ("op1", .node op1),
      ("op2", .node op2)])

/-- Translation of a unary expression. -/
def parseUnaryExpr : ast.UnaryExpr → Except Panic Node
  | .mk Op X => do
    let op1 ← parseAst X
    pure (.obj [("tag", .str "unop"), ("op", .str (Op.String ++ "u")), ("op1", .node op1)])

/-- Translation of a parenthesized expression. -/
def parseParenExpr : ast.ParenExpr → Except Panic Node
  | .mk X => parseAst X

/-- Translation of a value specification; each name, an identifier, goes through the
identifier arm of the dispatch. -/
def parseValueSpec : ast.ValueSpec → Except Panic Node
  | .mk Names Type_ Values =>
    match Type_ with
    | none => .ok (.obj [("tag", .str "error"), ("val", .str "Type inference not supported")])
    | some ty => do
      let t ← parseAst ty
      let names := Names.map parseIdent
      let types := Names.map (fun _ => t)
      let values ← parseAll Values
      pure (.obj [("tag", .str "spec"), ("idents", .nodes names), ("types", .nodes types),
        ("vals", .nodes values)])

/-- The expression `genDecl.Specs[0].(*ast.ValueSpec)` followed by `parseValueSpec`. -/
def parseFirstSpec : List ast.Spec → Except Panic Node
  | [] => .error .indexOutOfRange
  | .ValueSpec t :: _ => parseValueSpec t
  | _ :: _ => .error .typeAssertion

/-- Translation of a general declaration. -/
def parseGenDecl : ast.GenDecl → Except Panic Node
  | .mk Lparen Tok Specs =>
    if Lparen.IsValid then
      .ok (.obj [("tag", .str "error"), ("val", .str "Unsupported declaration type")])
    else if Tok = Token.CONST then do
      let spec ← parseFirstSpec Specs
      pure (.obj [("tag", .str "constDecl"), ("spec", .node spec)])
    else if Tok = Token.VAR then do
      let spec ← parseFirstSpec Specs
      pure (.obj [("tag", .str "varDecl"), ("spec", .node spec)])
    else
      .ok (.obj [("tag", .str "error"), ("val", .str "Unsupported declaration type")])

/-- Translation of a function declaration.  The body goes through the block arm of
the dispatch also when the pointer is nil, and `parseBlockStmt` then dereferences it. -/
def parseFuncDecl : ast.FuncDecl → Except Panic Node
  | .mk _ Name Type_ Body => do
    let name := (parseIdent Name).index "val"
    let type ← parseFuncType Type_
    let body ← match Body with
      | none => .error .nilDereference
      | some b => parseBlockStmt b
    pure (.obj [("tag", .str "funcDecl"), ("name", name), ("type", .node type),
      ("body", .node body)])

/-- Translation of an assignment. -/
def parseAssignStmt : ast.AssignStmt → Except Panic Node
  | .mk Lhs Tok Rhs =>
    if Lhs.length ≠ Rhs.length ∨ Tok ≠ Token.ASSIGN then
      .ok (.obj [("tag", .str "error"), ("val", .str "Only simple assignments are supported")])
    else do
      let lhs ← parseAll Lhs
      let rhs ← parseAll Rhs
      pure (.obj [("tag", .str "assign"), ("idents", .nodes lhs), ("vals", .nodes rhs),
        ("op", .str Tok.String)])

/-- Translation of a block. -/
def parseBlockStmt : ast.BlockStmt → Except Panic Node
  | .mk List_ => do
    let stmts ← parseAll List_
    pure (.obj [("tag", .str "block"),
      ("body", .node (.obj [("tag", .str "seq"), ("stmts", .nodes stmts)]))])

/-- Translation of a call. -/
def parseCallExpr : ast.CallExpr → Except Panic Node
  | .mk Fun Args => do
    let fn ← parseAst Fun
    let args ← parseAll Args
    pure (.obj [("tag", .str "call"), ("fun", .node fn), ("args", .nodes args)])

/-- Translation of a return statement. -/
def parseReturnStmt : ast.ReturnStmt → Except Panic Node
  | .mk Results => do
    let results ← parseAll Results
    pure (.obj [("tag", .str "return"), ("results", .nodes results)])

/-- Translation of a conditional; the body, a non-nil block, goes through the block
arm of the dispatch. -/
def parseIfStmt : ast.IfStmt → Except Panic Node
  | .mk Init Cond Body Else =>
    if Init.isSome then
      .ok (.obj [("tag", .str "error"), ("val", .str "Init statement in if not supported")])
    else
      match Else with
      | none => do
        let cond ← parseAst Cond
        let thn ← parseBlockStmt Body
        pure (.obj [("tag", .str "if"), ("cond", .node cond), ("then", .node thn),
          ("else", .node (.obj [("tag", .str "nop")]))])
      | some els => do
        let cond ← parseAst Cond
        let thn ← parseBlockStmt Body
        let els ← parseAst els
        pure (.obj [("tag", .str "if"), ("cond", .node cond), ("then", .node thn),
          ("else", .node els)])

/-- Translation of a go statement; the call, a non-nil call expression, goes through
the call arm of the dispatch. -/
def parseGoStmt : ast.GoStmt → Except Panic Node
  | .mk Call => do
    let call ← parseCallExpr Call
    pure (.obj [("tag", .str "go"), ("call", .node call)])

end

end

/-- The root node `parsed_ast` built by `parseToJson`, before it is serialised.  The
outcomes of the two upstream steps are inputs: `parsed` is the result of
`parser.ParseFile`, the declarations `f.Decls` of the file or the text of its error;
`checked` is the text of the error of `conf.Check`, if it reports one. -/
def parseToJson (ParseFloat : String → Except String Float64)
    (parsed : Except String (List ast.Node)) (checked : Option String) : Except Panic Node :=
  match parsed with
  | .error err => .ok (.obj [("tag", .str "error"), ("val", .str err)])
  | .ok decls =>
    match checked with
    | some err => .ok (.obj [("tag", .str "error"), ("val", .str err)])
    | none => do
      let ds ← parseAll ParseFloat decls
      pure (.obj [("tag", .str "package"), ("decls", .nodes ds)])

/-! ## Vocabulary of the statements -/

/-- The field groups of a field list; none when the list is absent. -/
def fieldsOf : Option ast.FieldList → List ast.Field
  | none => []
  | some (.mk fields) => fields

/-- The list is not empty and its first group has no names: the case
`fieldList.List[0].Names == nil` of `parseFuncSignature`. -/
def firstUnnamed : List ast.Field → Bool
  | [] => false
  | first :: _ => first.Names.isEmpty

/-- Every group of the list has at least one name. -/
def allNamed (fields : List ast.Field) : Prop :=
  ∀ field ∈ fields, field.Names ≠ []

/-- The types of the groups translate to `types`, group by group. -/
def TypesTranslate (ParseFloat : String → Except String Float64)
    (fields : List ast.Field) (types : List Node) : Prop :=
  List.Forall₂ (fun field t => parseAst ParseFloat field.Type_ = .ok t) fields types

/-- The syntax nodes translate to the IR nodes, position by position. -/
def Translate (ParseFloat : String → Except String Float64)
    (xs : List ast.Node) (ys : List Node) : Prop :=
  List.Forall₂ (fun x y => parseAst ParseFloat x = .ok y) xs ys

/-- A `ParseFloat` that rejects every text, for programs without floating-point
literals. -/
def rejectFloat : String → Except String Float64 :=
  fun s => .error ("strconv.ParseFloat: parsing " ++ strconv.Quote s ++ ": invalid syntax")

/-- The names of all groups in source order, as ident nodes: the flattening of the
groups' names. -/
def flatNames : List ast.Field → List Node
  | [] => []
  | field :: rest => field.Names.map parseIdent ++ flatNames rest

/-- For each name in source order, the translated type of the group the name belongs
to; `types` are the translated types of the groups. -/
def flatTypes : List ast.Field → List Node → List Node
  | field :: rest, t :: types => List.replicate field.Names.length t ++ flatTypes rest types
  | _, _ => []

/-- Every group except possibly the last has exactly one name. -/
def singlesButLast : List ast.Field → Bool
  | [] => true
  | [_] => true
  | field :: rest => field.Names.length == 1 && singlesButLast rest

mutual

/-- The syntax tree with every parenthesized expression replaced by the expression
inside the parentheses, at every depth. -/
def removeParens : ast.Node → ast.Node
  | .ExprStmt (.mk X) => .ExprStmt (.mk (removeParens X))
  | .BasicLit t => .BasicLit t
  | .FuncLit t => .FuncLit (removeParensFuncLit t)
  | .Ident t => .Ident t
  | .BinaryExpr (.mk X Op Y) => .BinaryExpr (.mk (removeParens X) Op (removeParens Y))
  | .UnaryExpr (.mk Op X) => .UnaryExpr (.mk Op (removeParens X))
  | .ParenExpr (.mk X) => removeParens X
  | .DeclStmt (.mk Decl) => .DeclStmt (.mk (removeParens Decl))
  | .GenDecl (.mk Lparen Tok Specs) => .GenDecl (.mk Lparen Tok (removeParensSpecs Specs))
  | .FuncDecl (.mk Recv Name Type_ Body) =>
    .FuncDecl (.mk (removeParensFieldList Recv) Name (removeParensFuncType Type_)
      (removeParensBody Body))
  | .AssignStmt (.mk Lhs Tok Rhs) =>
    .AssignStmt (.mk (removeParensAll Lhs) Tok (removeParensAll Rhs))
  | .FuncType t => .FuncType (removeParensFuncType t)
  | .BlockStmt t => .BlockStmt (removeParensBlock t)
  | .CallExpr t => .CallExpr (removeParensCall t)
  | .ReturnStmt (.mk Results) => .ReturnStmt (.mk (removeParensAll Results))
  | .IfStmt t => .IfStmt (removeParensIf t)
  | .GoStmt (.mk Call) => .GoStmt (.mk (removeParensCall Call))
  | .Other typeName => .Other typeName

/-- Removal of parentheses in each node of a list. -/
def removeParensAll : List ast.Node → List ast.Node
  | [] => []
  | x :: rest => removeParens x :: removeParensAll rest

/-- Removal of parentheses in an optional node. -/
def removeParensOpt : Option ast.Node → Option ast.Node
  | none => none
  | some x => some (removeParens x)

/-- Removal of parentheses in a function literal. -/
def removeParensFuncLit : ast.FuncLit → ast.FuncLit
  | .mk Type_ Body => .mk (removeParensFuncType Type_) (removeParensBlock Body)

/-- Removal of parentheses in a function type. -/
def removeParensFuncType : ast.FuncType → ast.FuncType
  | .mk TypeParams Params Results =>
    .mk (removeParensFieldList TypeParams) (removeParensFieldList Params)
      (removeParensFieldList Results)

/-- Removal of parentheses in a field list, if present. -/
def removeParensFieldList : Option ast.FieldList → Option ast.FieldList
  | none => none
  | some (.mk fields) => some (.mk (removeParensFields fields))

/-- Removal of parentheses in the types of field groups. -/
def removeParensFields : List ast.Field → List ast.Field
  | [] => []
  | .mk Names Type_ :: rest => .mk Names (removeParens Type_) :: removeParensFields rest

/-- Removal of parentheses in a block. -/
def removeParensBlock : ast.BlockStmt → ast.BlockStmt
  | .mk stmts => .mk (removeParensAll stmts)

/-- Removal of parentheses in the body of a function declaration, if present. -/
def removeParensBody : Option ast.BlockStmt → Option ast.BlockStmt
  | none => none
  | some b => some (removeParensBlock b)

/-- Removal of parentheses in a call. -/
def removeParensCall : ast.CallExpr → ast.CallExpr
  | .mk Fun Args => .mk (removeParens Fun) (removeParensAll Args)

/-- Removal of parentheses in a conditional. -/
def removeParensIf : ast.IfStmt → ast.IfStmt
  | .mk Init Cond Body Else =>
    .mk (removeParensOpt Init) (removeParens Cond) (removeParensBlock Body)
      (removeParensOpt Else)

/-- Removal of parentheses in the specs of a declaration. -/
def removeParensSpecs : List ast.Spec → List ast.Spec
  | [] => []
  | .ValueSpec (.mk Names Type_ Values) :: rest =>
    .ValueSpec (.mk Names (removeParensOpt Type_) (removeParensAll Values)) ::
      removeParensSpecs rest
  | .ImportSpec :: rest => .ImportSpec :: removeParensSpecs rest
  | .TypeSpec :: rest => .TypeSpec :: removeParensSpecs rest

end

/-- The value of a code unit as a digit: `0`-`9`, `a`-`f` or `A`-`F`; none for any
other code unit. -/
def digitOf (c : Nat) : Option Nat :=
  if '0'.toNat ≤ c ∧ c ≤ '9'.toNat then some (c - '0'.toNat)
  else if 'a'.toNat ≤ c ∧ c ≤ 'f'.toNat then some (c - 'a'.toNat + 10)
  else if 'A'.toNat ≤ c ∧ c ≤ 'F'.toNat then some (c - 'A'.toNat + 10)
  else none

/-- The value of a code unit as a digit of the base, if it is one. -/
def digitValue (base : Nat) (c : Nat) : Option Nat :=
  match digitOf c with
  | some d => if d < base then some d else none
  | none => none

/-- The value of the part `\x7b [ "_" ] digit \x7d` of a literal that follows a digit or a
base prefix, in the grammar of the language; `acc` is the value of the digits read so
far, and `afterUnderscore` tells that the last character was an underscore, which a
digit has to follow.  None when the text is not of that form. -/
def moreDigits (base : Nat) : List Nat → Bool → Nat → Option Nat
  | [], afterUnderscore, acc => if afterUnderscore then none else some acc
  | c :: rest, afterUnderscore, acc =>
    if c = '_'.toNat then
      if afterUnderscore then none else moreDigits base rest true acc
    else
      match digitValue base c with
      | some d => moreDigits base rest false (acc * base + d)
      | none => none

/-- The value of the part `[ "_" ] digits` that follows a base prefix: at least one
digit is required. -/
def afterPrefix (base : Nat) (rest : List Nat) : Option Nat :=
  if rest = [] then none else moreDigits base rest false 0

/-- The integer value that the language assigns to the code units of an integer
literal, by the grammar of the language specification:
`decimal_lit = "0" | ( "1" … "9" ) [ [ "_" ] decimal_digits ]`,
`binary_lit = "0" ( "b" | "B" ) [ "_" ] binary_digits`,
`octal_lit = "0" [ "o" | "O" ] [ "_" ] octal_digits`,
`hex_lit = "0" ( "x" | "X" ) [ "_" ] hex_digits`,
where digits are separated by at most one underscore.  None when the text is not an
integer literal. -/
def intLitUnits : List Nat → Option Nat
  | [] => none
  | c0 :: rest =>
    if c0 = '0'.toNat then
      match rest with
      | [] => some 0
      | c1 :: rest1 =>
        if c1 = 'b'.toNat ∨ c1 = 'B'.toNat then afterPrefix 2 rest1
        else if c1 = 'o'.toNat ∨ c1 = 'O'.toNat then afterPrefix 8 rest1
        else if c1 = 'x'.toNat ∨ c1 = 'X'.toNat then afterPrefix 16 rest1
        else afterPrefix 8 rest
    else if '1'.toNat ≤ c0 ∧ c0 ≤ '9'.toNat then moreDigits 10 rest false (c0 - '0'.toNat)
    else none

/-- The integer value that the language assigns to an integer literal text; none
when the text is not a valid integer literal. -/
def intLitValue (text : String) : Option Nat :=
  intLitUnits (text.toList.map Char.toNat)

/-! ## Syntax trees of the test programs -/

namespace tests

/-- The identifier `name` as an expression. -/
def id (name : String) : ast.Node := .Ident ⟨name⟩

/-- An unnamed field group of type `ty`. -/
def unnamed (ty : String) : ast.Field := .mk [] (id ty)

/-- A field group of names sharing the type `ty`. -/
def group (names : List String) (ty : String) : ast.Field :=
  .mk (names.map fun n => ⟨n⟩) (id ty)

/-- A parameter list `(a, b int, c float64)`: two names sharing a type, then one
name of another type. -/
def groupedParams : ast.FieldList :=
  .mk [group ["a", "b"] "int", group ["c"] "float64"]

/-- The type of `func powers(x int) (int, int, int)` of test5.go. -/
def powersType : ast.FuncType :=
  .mk none (some (.mk [group ["x"] "int"]))
    (some (.mk [unnamed "int", unnamed "int", unnamed "int"]))

/-- The type of `func sqrt_aux(x, a float64) float64` of test7.go. -/
def sqrtAuxType : ast.FuncType :=
  .mk none (some (.mk [group ["x", "a"] "float64"])) (some (.mk [unnamed "float64"]))

/-- A declaration `func f() int` without body. -/
def bodyless : ast.Node :=
  .FuncDecl (.mk none ⟨"f"⟩ (.mk none (some (.mk [])) (some (.mk [unnamed "int"]))) none)

/-- The expression `var y, z, w int = powers(x)` of test5.go: its specification. -/
def powersSpec : ast.ValueSpec :=
  .mk [⟨"y"⟩, ⟨"z"⟩, ⟨"w"⟩] (some (id "int")) [.CallExpr (.mk (id "powers") [id "x"])]

/-- A declaration `var x = 1`: no parentheses, no declared type. -/
def untypedVar : ast.Node :=
  .GenDecl (.mk token.NoPos Token.VAR [.ValueSpec (.mk [⟨"x"⟩] none [.BasicLit ⟨Token.INT, "1"⟩])])

/-- A group `var ( x int; y int )` with its opening parenthesis at position 5. -/
def groupedVars : ast.GenDecl :=
  .mk 5 Token.VAR [.ValueSpec (.mk [⟨"x"⟩] (some (id "int")) []),
    .ValueSpec (.mk [⟨"y"⟩] (some (id "int")) [])]

/-- The expression `z + x` of manual1.go. -/
def zPlusX : ast.Node := .BinaryExpr (.mk (id "z") Token.ADD (id "x"))

/-- The statement `if v := 1; v > 0 \x7b\x7d`: an initializer and no else-clause. -/
def ifWithInit : ast.IfStmt :=
  .mk (some (.AssignStmt (.mk [id "v"] Token.DEFINE [.BasicLit ⟨Token.INT, "1"⟩])))
    (.BinaryExpr (.mk (id "v") Token.GTR (.BasicLit ⟨Token.INT, "0"⟩))) (.mk []) none

/-- The condition `x < 0` of `abs` in test7.go. -/
def absCond : ast.Node :=
  .BinaryExpr (.mk (id "x") Token.LSS (.BasicLit ⟨Token.INT, "0"⟩))

/-- The body `\x7b return -x \x7d` of the conditional of `abs` in test7.go. -/
def absBody : ast.BlockStmt :=
  .mk [.ReturnStmt (.mk [.UnaryExpr (.mk Token.SUB (id "x"))])]

/-- The receiver `(t T)` of a method. -/
def receiver : ast.FieldList := .mk [group ["t"] "T"]

/-- A method `func (t T) m() \x7b\x7d`. -/
def method : ast.Node :=
  .FuncDecl (.mk (some receiver) ⟨"m"⟩ (.mk none (some (.mk [])) none) (some (.mk [])))

/-- The declaration `var z int = 5` of manual1.go. -/
def varZ : ast.Node :=
  .GenDecl (.mk token.NoPos Token.VAR
    [.ValueSpec (.mk [⟨"z"⟩] (some (id "int")) [.BasicLit ⟨Token.INT, "5"⟩])])

/-- The statement `println(z)` of manual1.go. -/
def printlnZ : ast.Node := .ExprStmt (.mk (.CallExpr (.mk (id "println") [id "z"])))

/-- The statement `z = z + x` of manual1.go. -/
def assignZ : ast.Node := .AssignStmt (.mk [id "z"] Token.ASSIGN [zPlusX])

/-- The type of a function `func f(a, b int, c float64)`. -/
def groupedType : ast.FuncType := .mk none (some groupedParams) none

/-- The statement `if x \x7b\x7d else if y \x7b\x7d`: the else-clause is a conditional. -/
def elseIf : ast.IfStmt :=
  .mk none (id "x") (.mk []) (some (.IfStmt (.mk none (id "y") (.mk []) none)))

/-- The condition `x == 0` of `factorial` in test2.go. -/
def factCond : ast.Node :=
  .BinaryExpr (.mk (id "x") Token.EQL (.BasicLit ⟨Token.INT, "0"⟩))

/-- The block `\x7b return 1 \x7d` of `factorial` in test2.go. -/
def factThen : ast.BlockStmt := .mk [.ReturnStmt (.mk [.BasicLit ⟨Token.INT, "1"⟩])]

/-- The block `\x7b return x \x7d`, an else-clause. -/
def returnX : ast.BlockStmt := .mk [.ReturnStmt (.mk [id "x"])]

/-- The type of a generic function `func f[T any](x T)`. -/
def genericType : ast.FuncType :=
  .mk (some (.mk [group ["T"] "any"])) (some (.mk [group ["x"] "T"])) none

/-- The string literal `"hi"`. -/
def stringLit : ast.BasicLit := ⟨Token.STRING, "\"hi\""⟩

/-- The parameter list `(a int, b, c float64)`: one name, then two names sharing a
type. -/
def singleThenPair : List ast.Field := [group ["a"] "int", group ["b", "c"] "float64"]

end tests

/-! ## Translation of lists -/

section
variable (ParseFloat : String → Except String Float64)

theorem parseAll_ok_iff (xs : List ast.Node) (ys : List Node) :
    parseAll ParseFloat xs = .ok ys ↔ Translate ParseFloat xs ys := by
  unfold Translate
  induction xs generalizing ys with
  | nil =>
    cases ys <;> simp [parseAll]
  | cons x rest ih =>
    rw [parseAll]
    cases hx : parseAst ParseFloat x with
    | error e =>
      constructor
      · intro h; cases h
      · intro h
        cases h with
        | cons h1 _ => rw [hx] at h1; cases h1
    | ok y =>
      cases hr : parseAll ParseFloat rest with
      | error e =>
        constructor
        · intro h; cases h
        · intro h
          cases h with
          | cons h1 h2 =>
            rw [← ih] at h2; rw [hr] at h2; cases h2
      | ok ys1 =>
        constructor
        · intro h
          cases h
          exact List.Forall₂.cons hx ((ih ys1).1 hr)
        · intro h
          cases h with
          | cons h1 h2 =>
            rw [hx] at h1; cases h1
            rw [← ih, hr] at h2; cases h2
            rfl

theorem parseFieldTypes_ok_iff (fields : List ast.Field) (types : List Node) :
    parseFieldTypes ParseFloat fields = .ok types ↔ TypesTranslate ParseFloat fields types := by
  unfold TypesTranslate
  induction fields generalizing types with
  | nil =>
    cases types <;> simp [parseFieldTypes]
  | cons field rest ih =>
    obtain ⟨names, ty⟩ := field
    rw [parseFieldTypes]
    cases hx : parseAst ParseFloat ty with
    | error e =>
      constructor
      · intro h; cases h
      · intro h
        cases h with
        | cons h1 _ =>
          have h3 : parseAst ParseFloat ty = .ok _ := h1
          rw [hx] at h3; cases h3
    | ok y =>
      cases hr : parseFieldTypes ParseFloat rest with
      | error e =>
        constructor
        · intro h; cases h
        · intro h
          cases h with
          | cons h1 h2 =>
            have h3 := (ih _).2 h2
            rw [hr] at h3; cases h3
      | ok ys1 =>
        constructor
        · intro h
          cases h
          exact List.Forall₂.cons hx ((ih ys1).1 hr)
        · intro h
          cases h with
          | cons h1 h2 =>
            have h3 : parseAst ParseFloat ty = .ok _ := h1
            rw [hx] at h3; cases h3
            have h4 := (ih _).2 h2
            rw [hr] at h4; cases h4
            rfl

end

/-! ## The write loops of `parseFuncSignature` -/

theorem store_ok (xs : List Node) (k : Nat) (v : Node) (h : k < xs.length) :
    store xs k v = .ok (xs.set k v) := by
  simp [store, h]

theorem store_length (xs ys : List Node) (k : Nat) (v : Node) (h : store xs k v = .ok ys) :
    ys.length = xs.length := by
  unfold store at h
  split at h
  · cases h; simp
  · cases h

theorem load_ok (xs : List Node) (k : Nat) (h : k < xs.length) :
    ∃ v, load xs k = .ok v := by
  unfold load
  rw [List.get?_eq_get h]
  exact ⟨_, rfl⟩

theorem numParams_cons (field : ast.Field) (rest : List ast.Field) :
    numParams (field :: rest) = field.Names.length + numParams rest := by
  have key : ∀ (l : List ast.Field) (n : Nat),
      l.foldl (fun n field => n + field.Names.length) n
        = n + l.foldl (fun n field => n + field.Names.length) 0 := by
    intro l
    induction l with
    | nil => intro n; simp
    | cons f l ih =>
      intro n
      simp only [List.foldl_cons]
      rw [ih (n + f.Names.length), ih (0 + f.Names.length)]
      omega
  unfold numParams
  simp only [List.foldl_cons]
  rw [key]
  omega

theorem writeNames_length (parsedTypes : List Node) (i : Nat) (ids : List ast.Ident) :
    ∀ (j : Nat) (names types names1 types1 : List Node),
      writeNames parsedTypes i ids j (names, types) = .ok (names1, types1) →
      names1.length = names.length ∧ types1.length = types.length := by
  induction ids with
  | nil =>
    intro j names types names1 types1 h
    simp only [writeNames] at h
    cases h
    exact ⟨rfl, rfl⟩
  | cons name rest ih =>
    intro j names types names1 types1 h
    simp only [writeNames, bind, Except.bind] at h
    cases h1 : store names (i + j) (parseIdent name) with
    | error e => rw [h1] at h; cases h
    | ok n2 =>
      rw [h1] at h
      cases h2 : load parsedTypes i with
      | error e => rw [h2] at h; cases h
      | ok t =>
        rw [h2] at h
        dsimp only at h
        cases h3 : store types (i + j) t with
        | error e => rw [h3] at h; cases h
        | ok t2 =>
          rw [h3] at h
          have := ih (j + 1) n2 t2 names1 types1 h
          rw [store_length _ _ _ _ h1, store_length _ _ _ _ h3] at this
          exact this

theorem writeNames_ok (parsedTypes : List Node) (i : Nat) (hi : i < parsedTypes.length)
    (ids : List ast.Ident) :
    ∀ (j : Nat) (names types : List Node),
      i + j + ids.length ≤ names.length → names.length = types.length →
      ∃ names1 types1, writeNames parsedTypes i ids j (names, types) = .ok (names1, types1) := by
  induction ids with
  | nil =>
    intro j names types _ _
    exact ⟨names, types, rfl⟩
  | cons name rest ih =>
    intro j names types hlen heq
    simp only [List.length_cons] at hlen
    obtain ⟨t, ht⟩ := load_ok parsedTypes i hi
    simp only [writeNames, bind, Except.bind]
    rw [store_ok names (i + j) _ (by omega), ht]
    dsimp only
    rw [store_ok types (i + j) _ (by omega)]
    apply ih (j + 1)
    · simp only [List.length_set]; omega
    · simp only [List.length_set]; exact heq

theorem writeFields_length (parsedTypes : List Node) (fields : List ast.Field) :
    ∀ (i : Nat) (names types names1 types1 : List Node),
      writeFields parsedTypes fields i (names, types) = .ok (names1, types1) →
      names1.length = names.length ∧ types1.length = types.length := by
  induction fields with
  | nil =>
    intro i names types names1 types1 h
    simp only [writeFields] at h
    cases h
    exact ⟨rfl, rfl⟩
  | cons field rest ih =>
    intro i names types names1 types1 h
    simp only [writeFields, bind, Except.bind] at h
    cases h1 : writeNames parsedTypes i field.Names 0 (names, types) with
    | error e => rw [h1] at h; cases h
    | ok acc =>
      obtain ⟨n2, t2⟩ := acc
      rw [h1] at h
      have a := writeNames_length parsedTypes i field.Names 0 names types n2 t2 h1
      have b := ih (i + 1) n2 t2 names1 types1 h
      rw [a.1, a.2] at b
      exact b

theorem writeFields_ok (parsedTypes : List Node) (fields : List ast.Field) :
    ∀ (i : Nat) (names types : List Node),
      (∀ f ∈ fields, f.Names ≠ []) → i + fields.length ≤ parsedTypes.length →
      i + numParams fields ≤ names.length → names.length = types.length →
      ∃ names1 types1, writeFields parsedTypes fields i (names, types) = .ok (names1, types1) := by
  induction fields with
  | nil =>
    intro i names types _ _ _ _
    exact ⟨names, types, rfl⟩
  | cons field rest ih =>
    intro i names types hne hpt hlen heq
    rw [numParams_cons] at hlen
    simp only [List.length_cons] at hpt
    have hpos : 0 < field.Names.length :=
      List.length_pos.mpr (hne field (List.mem_cons_self _ _))
    obtain ⟨n2, t2, h1⟩ := writeNames_ok parsedTypes i (by omega) field.Names 0 names types
      (by omega) heq
    have a := writeNames_length parsedTypes i field.Names 0 names types n2 t2 h1
    simp only [writeFields, bind, Except.bind]
    rw [h1]
    apply ih (i + 1) n2 t2
    · intro f hf; exact hne f (List.mem_cons_of_mem _ hf)
    · omega
    · rw [a.1]; omega
    · rw [a.1, a.2]; exact heq

/-! ## Function signatures -/

section
variable (ParseFloat : String → Except String Float64)

theorem parseFuncSignature_cons (first : ast.Field) (rest : List ast.Field) (types : List Node)
    (ht : TypesTranslate ParseFloat (first :: rest) types) :
    parseFuncSignature ParseFloat (some (.mk (first :: rest))) =
      if first.Names = [] then .ok ([], types)
      else writeFields types (first :: rest) 0
        (make (numParams (first :: rest)), make (numParams (first :: rest))) := by
  rw [parseFuncSignature, (parseFieldTypes_ok_iff ParseFloat _ _).2 ht]
  rfl

theorem parseFuncSignature_shape (fl : Option ast.FieldList) (types : List Node)
    (ht : TypesTranslate ParseFloat (fieldsOf fl) types)
    (hs : firstUnnamed (fieldsOf fl) = true ∨ allNamed (fieldsOf fl)) :
    ∃ names tys, parseFuncSignature ParseFloat fl = .ok (names, tys) ∧
      (if firstUnnamed (fieldsOf fl) = true then
        names = [] ∧ tys.length = (fieldsOf fl).length
      else names.length = tys.length) := by
  match fl, ht, hs with
  | none, _, _ => exact ⟨[], [], rfl, by simp [fieldsOf, firstUnnamed]⟩
  | some (.mk []), _, _ => exact ⟨[], [], rfl, by simp [fieldsOf, firstUnnamed]⟩
  | some (.mk (first :: rest)), ht, hs =>
    simp only [fieldsOf] at ht hs ⊢
    rw [parseFuncSignature_cons ParseFloat first rest types ht]
    have hlen : (first :: rest).length = types.length := List.Forall₂.length_eq ht
    by_cases h0 : first.Names = []
    · refine ⟨[], types, by simp [h0], ?_⟩
      simp [firstUnnamed, h0, hlen]
    · have hu : firstUnnamed (first :: rest) = false := by
        simp [firstUnnamed, h0]
      have hn : allNamed (first :: rest) := by
        rcases hs with hs | hs
        · rw [hu] at hs; cases hs
        · exact hs
      obtain ⟨names, tys, hw⟩ := writeFields_ok types (first :: rest) 0
        (make (numParams (first :: rest))) (make (numParams (first :: rest))) hn
        (by omega) (by simp [make]) rfl
      have hl := writeFields_length types (first :: rest) 0 _ _ names tys hw
      refine ⟨names, tys, by simp [h0, hw], ?_⟩
      simp only [hu]
      rw [hl.1, hl.2]
      simp

end

/-- C1 (code at the failing input).  For the parameter list `(a, b int, c float64)`
the inner loop writes position `i+j`: the third name overwrites the second at
position 1 and position 2 is never written.  The names returned are `a`, `c` and a
nil entry, the types `int`, `float64` and a nil entry. -/
theorem parseFuncSignature_grouped_misaligned :
    parseFuncSignature rejectFloat (some tests.groupedParams) =
      .ok ([parseIdent ⟨"a"⟩, parseIdent ⟨"c"⟩, Node.nil],
        [parseIdent ⟨"int"⟩, parseIdent ⟨"float64"⟩, Node.nil]) := by
  rfl

/-- C2 (code at the failing input).  A function declaration without body, which the
upstream parser and type checker accept, makes `parseAst` dereference the nil
block: the translation panics instead of returning a node. -/
theorem parseAst_bodyless_panics (ParseFloat : String → Except String Float64) :
    parseAst ParseFloat tests.bodyless = .error Panic.nilDereference := by
  rfl

/-- C3 (as stated, refuted).  For `func powers(x int) (int, int, int)` the node
returned has no entry in `results` and three entries in `resultTypes`. -/
theorem parseFuncType_powers_lengths_differ :
    parseFuncType rejectFloat tests.powersType =
      .ok (.obj [("tag", .str "funcType"), ("params", .nodes [parseIdent ⟨"x"⟩]),
        ("paramTypes", .nodes [parseIdent ⟨"int"⟩]), ("results", .nodes []),
        ("resultTypes", .nodes [parseIdent ⟨"int"⟩, parseIdent ⟨"int"⟩, parseIdent ⟨"int"⟩])])
    ∧ ([] : List Node).length ≠
        [parseIdent ⟨"int"⟩, parseIdent ⟨"int"⟩, parseIdent ⟨"int"⟩].length := by
  exact ⟨rfl, by simp⟩

/-- C3 (amended).  For a function type without type parameters whose group types
translate and whose parameter list and result list each either start with an unnamed
group or have only named groups, `parseFuncType` returns a funcType node; of each list,
names and types have equal length, except when the list starts with an unnamed group:
then the names are empty and there is one type per group. -/
theorem parseFuncType_lengths (ParseFloat : String → Except String Float64)
    (Params Results : Option ast.FieldList) (pts rts : List Node)
    (hp : TypesTranslate ParseFloat (fieldsOf Params) pts)
    (hr : TypesTranslate ParseFloat (fieldsOf Results) rts)
    (hps : firstUnnamed (fieldsOf Params) = true ∨ allNamed (fieldsOf Params))
    (hrs : firstUnnamed (fieldsOf Results) = true ∨ allNamed (fieldsOf Results)) :
    ∃ params paramTypes results resultTypes,
      parseFuncType ParseFloat (.mk none Params Results) =
        .ok (.obj [("tag", .str "funcType"), ("params", .nodes params),
          ("paramTypes", .nodes paramTypes), ("results", .nodes results),
          ("resultTypes", .nodes resultTypes)]) ∧
      (if firstUnnamed (fieldsOf Params) = true then
        params = [] ∧ paramTypes.length = (fieldsOf Params).length
      else params.length = paramTypes.length) ∧
      (if firstUnnamed (fieldsOf Results) = true then
        results = [] ∧ resultTypes.length = (fieldsOf Results).length
      else results.length = resultTypes.length) := by
  obtain ⟨params, paramTypes, h1, h2⟩ := parseFuncSignature_shape ParseFloat Params pts hp hps
  obtain ⟨results, resultTypes, h3, h4⟩ :=
    parseFuncSignature_shape ParseFloat Results rts hr hrs
  refine ⟨params, paramTypes, results, resultTypes, ?_, h2, h4⟩
  rw [parseFuncType]
  simp only [Option.isSome_none, Bool.false_eq_true, if_false, bind, Except.bind, h1, h3]
  rfl

/-- C3 (amended), at the type of `sqrt_aux(x, a float64) float64`. -/
theorem parseFuncType_lengths_witness :
    TypesTranslate rejectFloat (fieldsOf (some (.mk [tests.group ["x", "a"] "float64"])))
      [parseIdent ⟨"float64"⟩] ∧
    TypesTranslate rejectFloat (fieldsOf (some (.mk [tests.unnamed "float64"])))
      [parseIdent ⟨"float64"⟩] ∧
    (firstUnnamed (fieldsOf (some (.mk [tests.group ["x", "a"] "float64"]))) = true ∨
      allNamed (fieldsOf (some (.mk [tests.group ["x", "a"] "float64"])))) ∧
    (firstUnnamed (fieldsOf (some (.mk [tests.unnamed "float64"]))) = true ∨
      allNamed (fieldsOf (some (.mk [tests.unnamed "float64"])))) ∧
    ∃ params paramTypes results resultTypes,
      parseFuncType rejectFloat tests.sqrtAuxType =
        .ok (.obj [("tag", .str "funcType"), ("params", .nodes params),
          ("paramTypes", .nodes paramTypes), ("results", .nodes results),
          ("resultTypes", .nodes resultTypes)]) ∧
      (if firstUnnamed (fieldsOf (some (.mk [tests.group ["x", "a"] "float64"]))) = true then
        params = [] ∧ paramTypes.length =
          (fieldsOf (some (.mk [tests.group ["x", "a"] "float64"]))).length
      else params.length = paramTypes.length) ∧
      (if firstUnnamed (fieldsOf (some (.mk [tests.unnamed "float64"]))) = true then
        results = [] ∧ resultTypes.length =
          (fieldsOf (some (.mk [tests.unnamed "float64"]))).length
      else results.length = resultTypes.length) :=
  have h1 : TypesTranslate rejectFloat
      (fieldsOf (some (.mk [tests.group ["x", "a"] "float64"]))) [parseIdent ⟨"float64"⟩] :=
    List.Forall₂.cons rfl List.Forall₂.nil
  have h2 : TypesTranslate rejectFloat (fieldsOf (some (.mk [tests.unnamed "float64"])))
      [parseIdent ⟨"float64"⟩] :=
    List.Forall₂.cons rfl List.Forall₂.nil
  have h3 : firstUnnamed (fieldsOf (some (.mk [tests.group ["x", "a"] "float64"]))) = true ∨
      allNamed (fieldsOf (some (.mk [tests.group ["x", "a"] "float64"]))) :=
    Or.inr (by
      intro field hf
      simp only [fieldsOf, List.mem_singleton] at hf
      subst hf
      simp [tests.group, ast.Field.Names])
  have h4 : firstUnnamed (fieldsOf (some (.mk [tests.unnamed "float64"]))) = true ∨
      allNamed (fieldsOf (some (.mk [tests.unnamed "float64"]))) :=
    Or.inl rfl
  ⟨h1, h2, h3, h4, parseFuncType_lengths rejectFloat _ _ _ _ h1 h2 h3 h4⟩

/-- C4.  For a non-empty field list whose first group has no names and whose group
types translate, `parseFuncSignature` returns no names and one type per group, in
order: the translations of the groups' types. -/
theorem parseFuncSignature_unnamed (ParseFloat : String → Except String Float64)
    (first : ast.Field) (rest : List ast.Field) (types : List Node)
    (hfirst : first.Names = [])
    (ht : TypesTranslate ParseFloat (first :: rest) types) :
    parseFuncSignature ParseFloat (some (.mk (first :: rest))) = .ok ([], types) ∧
      types.length = (first :: rest).length := by
  refine ⟨?_, (List.Forall₂.length_eq ht).symm⟩
  rw [parseFuncSignature_cons ParseFloat first rest types ht]
  simp [hfirst]

/-- C4, at the result list `(int, int, int)` of `powers` in test5.go. -/
theorem parseFuncSignature_unnamed_witness :
    (tests.unnamed "int").Names = [] ∧
    TypesTranslate rejectFloat [tests.unnamed "int", tests.unnamed "int", tests.unnamed "int"]
      [parseIdent ⟨"int"⟩, parseIdent ⟨"int"⟩, parseIdent ⟨"int"⟩] ∧
    parseFuncSignature rejectFloat
        (some (.mk [tests.unnamed "int", tests.unnamed "int", tests.unnamed "int"])) =
      .ok ([], [parseIdent ⟨"int"⟩, parseIdent ⟨"int"⟩, parseIdent ⟨"int"⟩]) ∧
    [parseIdent ⟨"int"⟩, parseIdent ⟨"int"⟩, parseIdent ⟨"int"⟩].length =
      [tests.unnamed "int", tests.unnamed "int", tests.unnamed "int"].length :=
  have ht : TypesTranslate rejectFloat
      [tests.unnamed "int", tests.unnamed "int", tests.unnamed "int"]
      [parseIdent ⟨"int"⟩, parseIdent ⟨"int"⟩, parseIdent ⟨"int"⟩] :=
    List.Forall₂.cons rfl (List.Forall₂.cons rfl (List.Forall₂.cons rfl List.Forall₂.nil))
  ⟨rfl, ht, parseFuncSignature_unnamed rejectFloat _ _ _ rfl ht⟩

/-! ## Declarations -/

/-- C5.  For a value specification with a declared type, `n` names and `m`
initializers (in particular `m ≤ n`), where the type and the initializers translate,
`parseValueSpec` returns a spec node whose idents are the ident nodes of the names in
order (`n` entries), whose types are `n` copies of the translation of the declared type,
and whose vals are the translations of the initializers in order (`m` entries). -/
theorem parseValueSpec_typed (ParseFloat : String → Except String Float64)
    (Names : List ast.Ident) (Type_ : ast.Node) (Values : List ast.Node)
    (t : Node) (vals : List Node)
    (ht : parseAst ParseFloat Type_ = .ok t)
    (hv : Translate ParseFloat Values vals) :
    parseValueSpec ParseFloat (.mk Names (some Type_) Values) =
      .ok (.obj [("tag", .str "spec"), ("idents", .nodes (Names.map parseIdent)),
        ("types", .nodes (List.replicate Names.length t)), ("vals", .nodes vals)]) ∧
    (Names.map parseIdent).length = Names.length ∧
    (List.replicate Names.length t).length = Names.length ∧
    vals.length = Values.length := by
  refine ⟨?_, by simp, by simp, (List.Forall₂.length_eq hv).symm⟩
  rw [parseValueSpec]
  simp only [bind, Except.bind, ht, (parseAll_ok_iff ParseFloat Values vals).2 hv,
    List.map_const']
  rfl

/-- C5, at `var y, z, w int = powers(x)` of test5.go: three names, one initializer. -/
theorem parseValueSpec_typed_witness :
    parseAst rejectFloat (tests.id "int") = .ok (parseIdent ⟨"int"⟩) ∧
    Translate rejectFloat [.CallExpr (.mk (tests.id "powers") [tests.id "x"])]
      [.obj [("tag", .str "call"), ("fun", .node (parseIdent ⟨"powers"⟩)),
        ("args", .nodes [parseIdent ⟨"x"⟩])]] ∧
    parseValueSpec rejectFloat tests.powersSpec =
      .ok (.obj [("tag", .str "spec"),
        ("idents", .nodes ([⟨"y"⟩, ⟨"z"⟩, ⟨"w"⟩].map parseIdent)),
        ("types", .nodes (List.replicate [(⟨"y"⟩ : ast.Ident), ⟨"z"⟩, ⟨"w"⟩].length
          (parseIdent ⟨"int"⟩))),
        ("vals", .nodes [.obj [("tag", .str "call"), ("fun", .node (parseIdent ⟨"powers"⟩)),
          ("args", .nodes [parseIdent ⟨"x"⟩])]])]) ∧
    ([⟨"y"⟩, ⟨"z"⟩, ⟨"w"⟩].map parseIdent).length = [(⟨"y"⟩ : ast.Ident), ⟨"z"⟩, ⟨"w"⟩].length ∧
    (List.replicate [(⟨"y"⟩ : ast.Ident), ⟨"z"⟩, ⟨"w"⟩].length (parseIdent ⟨"int"⟩)).length =
      [(⟨"y"⟩ : ast.Ident), ⟨"z"⟩, ⟨"w"⟩].length ∧
    [Node.obj [("tag", .str "call"), ("fun", .node (parseIdent ⟨"powers"⟩)),
        ("args", .nodes [parseIdent ⟨"x"⟩])]].length =
      [ast.Node.CallExpr (.mk (tests.id "powers") [tests.id "x"])].length :=
  have hv : Translate rejectFloat [.CallExpr (.mk (tests.id "powers") [tests.id "x"])]
      [.obj [("tag", .str "call"), ("fun", .node (parseIdent ⟨"powers"⟩)),
        ("args", .nodes [parseIdent ⟨"x"⟩])]] :=
    List.Forall₂.cons rfl List.Forall₂.nil
  ⟨rfl, hv, parseValueSpec_typed rejectFloat _ _ _ _ _ rfl hv⟩

/-- C6 (as stated, refuted).  For `var x = 1` the node returned for the declaration
is a varDecl node, not an error node; the error node is its spec. -/
theorem parseAst_untypedVar_is_varDecl :
    parseAst rejectFloat tests.untypedVar =
      .ok (.obj [("tag", .str "varDecl"),
        ("spec", .node (errorNode "Type inference not supported"))]) ∧
    Node.tag (.obj [("tag", .str "varDecl"),
      ("spec", .node (errorNode "Type inference not supported"))]) ≠ some "error" := by
  exact ⟨rfl, by decide⟩

/-- C6 (amended).  For an ungrouped constant or variable declaration whose
specification omits the declared type, `parseAst` returns a constDecl node (for
`const`) or a varDecl node (for `var`) whose spec is the error node
"Type inference not supported". -/
theorem parseAst_untyped_decl (ParseFloat : String → Except String Float64)
    (Names : List ast.Ident) (Values : List ast.Node) :
    parseAst ParseFloat
        (.GenDecl (.mk token.NoPos Token.CONST [.ValueSpec (.mk Names none Values)])) =
      .ok (.obj [("tag", .str "constDecl"),
        ("spec", .node (errorNode "Type inference not supported"))]) ∧
    parseAst ParseFloat
        (.GenDecl (.mk token.NoPos Token.VAR [.ValueSpec (.mk Names none Values)])) =
      .ok (.obj [("tag", .str "varDecl"),
        ("spec", .node (errorNode "Type inference not supported"))]) := by
  exact ⟨rfl, rfl⟩

/-- C7.  For a general declaration with an opening parenthesis, whatever its keyword
and its specs, `parseGenDecl` returns the error node "Unsupported declaration type";
the result does not depend on the specs, none of which is translated. -/
theorem parseGenDecl_grouped (ParseFloat : String → Except String Float64)
    (Lparen : token.Pos) (Tok : Token) (Specs : List ast.Spec)
    (hparen : Lparen.IsValid = true) :
    parseGenDecl ParseFloat (.mk Lparen Tok Specs) =
      .ok (errorNode "Unsupported declaration type") ∧
    (errorNode "Unsupported declaration type").tag = some "error" := by
  refine ⟨?_, rfl⟩
  rw [parseGenDecl]
  simp only [hparen, if_true]
  rfl

/-- C7, at the group `var ( x int; y int )`. -/
theorem parseGenDecl_grouped_witness :
    token.Pos.IsValid 5 = true ∧
    parseGenDecl rejectFloat tests.groupedVars =
      .ok (errorNode "Unsupported declaration type") ∧
    (errorNode "Unsupported declaration type").tag = some "error" :=
  ⟨rfl, parseGenDecl_grouped rejectFloat 5 Token.VAR _ rfl⟩

/-! ## Statements -/

/-- C8.  `parseAssignStmt` returns the error node "Only simple assignments are
supported" when the numbers of left and right sides differ or the token is not `=`;
otherwise, the sides translating, it returns an assign node whose idents and vals are
the positional translations of the left and right sides, of equal length, with op
"="; and a node it returns is an error node exactly in the first case. -/
theorem parseAssignStmt_spec (ParseFloat : String → Except String Float64)
    (Lhs Rhs : List ast.Node) (Tok : Token) :
    ((Lhs.length ≠ Rhs.length ∨ Tok ≠ Token.ASSIGN) →
      parseAssignStmt ParseFloat (.mk Lhs Tok Rhs) =
        .ok (errorNode "Only simple assignments are supported")) ∧
    ((Lhs.length = Rhs.length ∧ Tok = Token.ASSIGN) →
      ∀ idents vals, Translate ParseFloat Lhs idents → Translate ParseFloat Rhs vals →
        parseAssignStmt ParseFloat (.mk Lhs Tok Rhs) =
          .ok (.obj [("tag", .str "assign"), ("idents", .nodes idents),
            ("vals", .nodes vals), ("op", .str "=")]) ∧
        idents.length = vals.length) ∧
    (∀ n, parseAssignStmt ParseFloat (.mk Lhs Tok Rhs) = .ok n →
      (n.tag = some "error" ↔ (Lhs.length ≠ Rhs.length ∨ Tok ≠ Token.ASSIGN))) := by
  refine ⟨?_, ?_, ?_⟩
  · intro h
    rw [parseAssignStmt, if_pos h]
    rfl
  · rintro ⟨hlen, htok⟩ idents vals hl hr
    have hc : ¬ (Lhs.length ≠ Rhs.length ∨ Tok ≠ Token.ASSIGN) := by
      rintro (h | h)
      · exact h hlen
      · exact h htok
    refine ⟨?_, ?_⟩
    · rw [parseAssignStmt, if_neg hc]
      simp only [bind, Except.bind, (parseAll_ok_iff ParseFloat Lhs idents).2 hl,
        (parseAll_ok_iff ParseFloat Rhs vals).2 hr, htok]
      rfl
    · rw [← List.Forall₂.length_eq hl, ← List.Forall₂.length_eq hr]
      exact hlen
  · intro n hn
    by_cases hc : Lhs.length ≠ Rhs.length ∨ Tok ≠ Token.ASSIGN
    · rw [parseAssignStmt, if_pos hc] at hn
      cases hn
      exact ⟨fun _ => hc, fun _ => rfl⟩
    · rw [parseAssignStmt, if_neg hc] at hn
      simp only [bind, Except.bind] at hn
      cases hl : parseAll ParseFloat Lhs with
      | error e => rw [hl] at hn; cases hn
      | ok lhs =>
        rw [hl] at hn
        cases hr : parseAll ParseFloat Rhs with
        | error e => rw [hr] at hn; cases hn
        | ok rhs =>
          rw [hr] at hn
          cases hn
          constructor
          · intro h
            simp [Node.tag, Node.get?, lookup] at h
          · intro h
            exact absurd h hc

/-- C8, at `z = z + x` of manual1.go. -/
theorem parseAssignStmt_spec_witness :
    ([tests.id "z"].length = [tests.zPlusX].length ∧ Token.ASSIGN = Token.ASSIGN) ∧
    Translate rejectFloat [tests.id "z"] [parseIdent ⟨"z"⟩] ∧
    Translate rejectFloat [tests.zPlusX]
      [.obj [("tag", .str "binop"), ("op", .str "+"), ("op1", .node (parseIdent ⟨"z"⟩)),
        ("op2", .node (parseIdent ⟨"x"⟩))]] ∧
    parseAssignStmt rejectFloat (.mk [tests.id "z"] Token.ASSIGN [tests.zPlusX]) =
      .ok (.obj [("tag", .str "assign"), ("idents", .nodes [parseIdent ⟨"z"⟩]),
        ("vals", .nodes [.obj [("tag", .str "binop"), ("op", .str "+"),
          ("op1", .node (parseIdent ⟨"z"⟩)), ("op2", .node (parseIdent ⟨"x"⟩))]]),
        ("op", .str "=")]) ∧
    [parseIdent ⟨"z"⟩].length =
      [Node.obj [("tag", .str "binop"), ("op", .str "+"), ("op1", .node (parseIdent ⟨"z"⟩)),
        ("op2", .node (parseIdent ⟨"x"⟩))]].length :=
  have hl : Translate rejectFloat [tests.id "z"] [parseIdent ⟨"z"⟩] :=
    List.Forall₂.cons rfl List.Forall₂.nil
  have hr : Translate rejectFloat [tests.zPlusX]
      [.obj [("tag", .str "binop"), ("op", .str "+"), ("op1", .node (parseIdent ⟨"z"⟩)),
        ("op2", .node (parseIdent ⟨"x"⟩))]] :=
    List.Forall₂.cons rfl List.Forall₂.nil
  ⟨⟨rfl, rfl⟩, hl, hr,
    (parseAssignStmt_spec rejectFloat [tests.id "z"] [tests.zPlusX] Token.ASSIGN).2.1
      ⟨rfl, rfl⟩ _ _ hl hr⟩

/-- C9 (as stated, refuted).  For `if v := 1; v > 0 \x7b\x7d`, a conditional without
else-clause, `parseIfStmt` returns the error node for the initializer, which has no
`else` entry. -/
theorem parseIfStmt_init_has_no_else :
    parseIfStmt rejectFloat tests.ifWithInit =
      .ok (errorNode "Init statement in if not supported") ∧
    (errorNode "Init statement in if not supported").get? "else" = none := by
  exact ⟨rfl, rfl⟩

/-- C9 (amended).  For a conditional with neither initializer nor else-clause, whose
condition and body translate, `parseIfStmt` returns an if node, and the `else` entry
of that node is present and is the nop node. -/
theorem parseIfStmt_no_else (ParseFloat : String → Except String Float64)
    (Cond : ast.Node) (Body : ast.BlockStmt) (cond thn : Node)
    (hc : parseAst ParseFloat Cond = .ok cond)
    (hb : parseAst ParseFloat (.BlockStmt Body) = .ok thn) :
    ∃ n, parseIfStmt ParseFloat (.mk none Cond Body none) = .ok n ∧
      n.tag = some "if" ∧
      n.get? "else" = some (.node (.obj [("tag", .str "nop")])) ∧
      Node.tag (.obj [("tag", .str "nop")]) = some "nop" := by
  have hb1 : parseBlockStmt ParseFloat Body = .ok thn := hb
  refine ⟨.obj [("tag", .str "if"), ("cond", .node cond), ("then", .node thn),
    ("else", .node (.obj [("tag", .str "nop")]))], ?_, rfl, rfl, rfl⟩
  rw [parseIfStmt]
  simp only [Option.isSome_none, Bool.false_eq_true, if_false, bind, Except.bind, hc, hb1]
  rfl

/-- C9 (amended), at the conditional `if x < 0 \x7b return -x \x7d` of `abs` in test7.go. -/
theorem parseIfStmt_no_else_witness :
    parseAst rejectFloat tests.absCond =
      .ok (.obj [("tag", .str "binop"), ("op", .str "<"), ("op1", .node (parseIdent ⟨"x"⟩)),
        ("op2", .node (.obj [("tag", .str "lit"), ("kind", .str "int"), ("val", .int 0)]))]) ∧
    parseAst rejectFloat (.BlockStmt tests.absBody) =
      .ok (.obj [("tag", .str "block"), ("body", .node (.obj [("tag", .str "seq"),
        ("stmts", .nodes [.obj [("tag", .str "return"),
          ("results", .nodes [.obj [("tag", .str "unop"), ("op", .str "-u"),
            ("op1", .node (parseIdent ⟨"x"⟩))]])]])]))]) ∧
    ∃ n, parseIfStmt rejectFloat (.mk none tests.absCond tests.absBody none) = .ok n ∧
      n.tag = some "if" ∧
      n.get? "else" = some (.node (.obj [("tag", .str "nop")])) ∧
      Node.tag (.obj [("tag", .str "nop")]) = some "nop" :=
  ⟨rfl, rfl, parseIfStmt_no_else rejectFloat tests.absCond tests.absBody _ _ rfl rfl⟩

/-- C10 (as stated, refuted).  For the method `func (t T) m() \x7b\x7d` the node
returned is a funcDecl node, built as for a function; it is not an error node. -/
theorem parseAst_method_is_funcDecl :
    parseAst rejectFloat tests.method =
      .ok (.obj [("tag", .str "funcDecl"), ("name", .str "m"),
        ("type", .node (.obj [("tag", .str "funcType"), ("params", .nodes []),
          ("paramTypes", .nodes []), ("results", .nodes []), ("resultTypes", .nodes [])])),
        ("body", .node (.obj [("tag", .str "block"),
          ("body", .node (.obj [("tag", .str "seq"), ("stmts", .nodes [])]))]))]) ∧
    Node.tag (.obj [("tag", .str "funcDecl"), ("name", .str "m"),
        ("type", .node (.obj [("tag", .str "funcType"), ("params", .nodes []),
          ("paramTypes", .nodes []), ("results", .nodes []), ("resultTypes", .nodes [])])),
        ("body", .node (.obj [("tag", .str "block"),
          ("body", .node (.obj [("tag", .str "seq"), ("stmts", .nodes [])]))]))]) ≠
      some "error" := by
  exact ⟨rfl, by decide⟩

/-- C10 (amended).  For a function declaration with a body, with or without a
receiver, whose type and body translate, `parseAst` returns a funcDecl node made of
the name, the translated type and the translated body; the receiver is not looked at,
so a method gives the same node as the function of the same name, type and body. -/
theorem parseAst_funcDecl_ignores_receiver (ParseFloat : String → Except String Float64)
    (Recv : Option ast.FieldList) (Name : ast.Ident) (Type_ : ast.FuncType)
    (Body : ast.BlockStmt) (type body : Node)
    (ht : parseFuncType ParseFloat Type_ = .ok type)
    (hb : parseAst ParseFloat (.BlockStmt Body) = .ok body) :
    parseAst ParseFloat (.FuncDecl (.mk Recv Name Type_ (some Body))) =
      .ok (.obj [("tag", .str "funcDecl"), ("name", .str Name.Name), ("type", .node type),
        ("body", .node body)]) ∧
    parseAst ParseFloat (.FuncDecl (.mk Recv Name Type_ (some Body))) =
      parseAst ParseFloat (.FuncDecl (.mk none Name Type_ (some Body))) := by
  have hb1 : parseBlockStmt ParseFloat Body = .ok body := hb
  refine ⟨?_, rfl⟩
  rw [parseAst, parseFuncDecl]
  simp only [bind, Except.bind, ht, hb1]
  rfl

/-- C10 (amended), at the method `func (t T) m() \x7b\x7d`. -/
theorem parseAst_funcDecl_ignores_receiver_witness :
    parseFuncType rejectFloat (.mk none (some (.mk [])) none) =
      .ok (.obj [("tag", .str "funcType"), ("params", .nodes []),
          ("paramTypes", .nodes []), ("results", .nodes []), ("resultTypes", .nodes [])]) ∧
    parseAst rejectFloat (.BlockStmt (.mk [])) =
      .ok (.obj [("tag", .str "block"),
          ("body", .node (.obj [("tag", .str "seq"), ("stmts", .nodes [])]))]) ∧
    parseAst rejectFloat tests.method =
      .ok (.obj [("tag", .str "funcDecl"), ("name", .str "m"),
        ("type", .node (.obj [("tag", .str "funcType"), ("params", .nodes []),
          ("paramTypes", .nodes []), ("results", .nodes []), ("resultTypes", .nodes [])])),
        ("body", .node (.obj [("tag", .str "block"),
          ("body", .node (.obj [("tag", .str "seq"), ("stmts", .nodes [])]))]))]) ∧
    parseAst rejectFloat tests.method =
      parseAst rejectFloat
        (.FuncDecl (.mk none ⟨"m"⟩ (.mk none (some (.mk [])) none) (some (.mk [])))) :=
  ⟨rfl, rfl, parseAst_funcDecl_ignores_receiver rejectFloat (some tests.receiver) ⟨"m"⟩
    (.mk none (some (.mk [])) none) (.mk []) _ _ rfl rfl⟩

theorem parseAst_funcDecl_node (ParseFloat : String → Except String Float64)
    (Recv : Option ast.FieldList) (Name : ast.Ident) (Type_ : ast.FuncType)
    (Body : ast.BlockStmt) (type body : Node)
    (ht : parseFuncType ParseFloat Type_ = .ok type)
    (hb : parseBlockStmt ParseFloat Body = .ok body) :
    parseAst ParseFloat (.FuncDecl (.mk Recv Name Type_ (some Body))) =
      .ok (.obj [("tag", .str "funcDecl"), ("name", .str Name.Name), ("type", .node type),
        ("body", .node body)]) := by
  rw [parseAst, parseFuncDecl]
  simp only [bind, Except.bind, ht, hb]
  rfl

/-! ## Programs and blocks -/

theorem Translate_append (ParseFloat : String → Except String Float64)
    (xs1 xs2 : List ast.Node) (ys1 ys2 : List Node)
    (h1 : Translate ParseFloat xs1 ys1) (h2 : Translate ParseFloat xs2 ys2) :
    Translate ParseFloat (xs1 ++ xs2) (ys1 ++ ys2) := by
  unfold Translate at *
  induction h1 with
  | nil => exact h2
  | cons hx _ ih => exact List.Forall₂.cons hx ih

theorem parseBlockStmt_of_translate (ParseFloat : String → Except String Float64)
    (stmts : List ast.Node) (ys : List Node) (h : Translate ParseFloat stmts ys) :
    parseBlockStmt ParseFloat (.mk stmts) =
      .ok (.obj [("tag", .str "block"),
        ("body", .node (.obj [("tag", .str "seq"), ("stmts", .nodes ys)]))]) := by
  rw [parseBlockStmt]
  simp only [bind, Except.bind, (parseAll_ok_iff ParseFloat stmts ys).2 h]
  rfl

/-- The root node built by `parseToJson`, with the outcomes of the upstream steps as
inputs: when parsing fails, or when parsing succeeds and type checking fails, it is the
error node whose val is the upstream diagnostic, whatever the declarations are (none
is translated); when both succeed and every declaration translates, it is a package
node whose decls are the translations of the top-level declarations, one per
declaration, in source order. -/
theorem parseToJson_spec (ParseFloat : String → Except String Float64)
    (decls : List ast.Node) (err : String) (checked : Option String) :
    parseToJson ParseFloat (.error err) checked =
      .ok (.obj [("tag", .str "error"), ("val", .str err)]) ∧
    parseToJson ParseFloat (.ok decls) (some err) =
      .ok (.obj [("tag", .str "error"), ("val", .str err)]) ∧
    (∀ ds, Translate ParseFloat decls ds →
      parseToJson ParseFloat (.ok decls) none =
        .ok (.obj [("tag", .str "package"), ("decls", .nodes ds)]) ∧
      ds.length = decls.length) := by
  refine ⟨rfl, rfl, ?_⟩
  intro ds h
  refine ⟨?_, (List.Forall₂.length_eq h).symm⟩
  simp only [parseToJson, bind, Except.bind, (parseAll_ok_iff ParseFloat decls ds).2 h]
  rfl

/-- The root node of a file whose only declaration is `var z int = 5`. -/
theorem parseToJson_spec_witness :
    Translate rejectFloat [tests.varZ]
      [.obj [("tag", .str "varDecl"), ("spec", .node (.obj [("tag", .str "spec"),
        ("idents", .nodes [parseIdent ⟨"z"⟩]), ("types", .nodes [parseIdent ⟨"int"⟩]),
        ("vals", .nodes [.obj [("tag", .str "lit"), ("kind", .str "int"),
          ("val", .int 5)]])]))]] ∧
    parseToJson rejectFloat (.ok [tests.varZ]) none =
      .ok (.obj [("tag", .str "package"), ("decls", .nodes
        [.obj [("tag", .str "varDecl"), ("spec", .node (.obj [("tag", .str "spec"),
          ("idents", .nodes [parseIdent ⟨"z"⟩]), ("types", .nodes [parseIdent ⟨"int"⟩]),
          ("vals", .nodes [.obj [("tag", .str "lit"), ("kind", .str "int"),
            ("val", .int 5)]])]))]])]) ∧
    [Node.obj [("tag", .str "varDecl"), ("spec", .node (.obj [("tag", .str "spec"),
        ("idents", .nodes [parseIdent ⟨"z"⟩]), ("types", .nodes [parseIdent ⟨"int"⟩]),
        ("vals", .nodes [.obj [("tag", .str "lit"), ("kind", .str "int"),
          ("val", .int 5)]])]))]].length = [tests.varZ].length :=
  have h : Translate rejectFloat [tests.varZ]
      [.obj [("tag", .str "varDecl"), ("spec", .node (.obj [("tag", .str "spec"),
        ("idents", .nodes [parseIdent ⟨"z"⟩]), ("types", .nodes [parseIdent ⟨"int"⟩]),
        ("vals", .nodes [.obj [("tag", .str "lit"), ("kind", .str "int"),
          ("val", .int 5)]])]))]] :=
    List.Forall₂.cons rfl List.Forall₂.nil
  ⟨h, (parseToJson_spec rejectFloat [tests.varZ] "" none).2.2 _ h⟩

/-- C11 (code at the failing input).  For a file whose only declaration is
`func f() int` without body, parsing and type checking both succeed, and
`parseToJson` builds no root node: the translation of the declaration dereferences the
nil body and panics, where a package node with one entry is expected. -/
theorem parseToJson_bodyless_panics (ParseFloat : String → Except String Float64) :
    parseToJson ParseFloat (.ok [tests.bodyless]) none = .error Panic.nilDereference := by
  rfl

/-- C12.  For a block whose statements translate, `parseBlockStmt` returns a block
whose seq holds the translations of the statements, one per statement, in source
order.  Replacing one statement by a statement of a kind outside the dispatch changes
that one entry into the error node naming the kind and nothing else: the other
entries, the function declaration around the block and the other declarations of the
package are the same as before. -/
theorem parseBlockStmt_isolation (ParseFloat : String → Except String Float64)
    (pre post : List ast.Node) (s : ast.Node) (typeName : String)
    (ypre ypost : List Node) (y : Node)
    (hpre : Translate ParseFloat pre ypre) (hs : parseAst ParseFloat s = .ok y)
    (hpost : Translate ParseFloat post ypost) :
    parseBlockStmt ParseFloat (.mk (pre ++ s :: post)) =
      .ok (.obj [("tag", .str "block"),
        ("body", .node (.obj [("tag", .str "seq"), ("stmts", .nodes (ypre ++ y :: ypost))]))]) ∧
    (ypre ++ y :: ypost).length = (pre ++ s :: post).length ∧
    parseBlockStmt ParseFloat (.mk (pre ++ .Other typeName :: post)) =
      .ok (.obj [("tag", .str "block"),
        ("body", .node (.obj [("tag", .str "seq"), ("stmts", .nodes
          (ypre ++ errorNode ("Unsupported language feature: " ++ typeName) :: ypost))]))]) ∧
    (∀ (Recv : Option ast.FieldList) (Name : ast.Ident) (Type_ : ast.FuncType) (type : Node)
        (dpre dpost : List ast.Node) (zpre zpost : List Node),
      parseFuncType ParseFloat Type_ = .ok type →
      Translate ParseFloat dpre zpre → Translate ParseFloat dpost zpost →
      parseToJson ParseFloat
          (.ok (dpre ++ .FuncDecl (.mk Recv Name Type_ (some (.mk (pre ++ s :: post)))) :: dpost))
          none =
        .ok (.obj [("tag", .str "package"), ("decls", .nodes
          (zpre ++ .obj [("tag", .str "funcDecl"), ("name", .str Name.Name),
            ("type", .node type), ("body", .node (.obj [("tag", .str "block"),
              ("body", .node (.obj [("tag", .str "seq"),
                ("stmts", .nodes (ypre ++ y :: ypost))]))]))] :: zpost))]) ∧
      parseToJson ParseFloat
          (.ok (dpre ++ .FuncDecl (.mk Recv Name Type_
            (some (.mk (pre ++ .Other typeName :: post)))) :: dpost))
          none =
        .ok (.obj [("tag", .str "package"), ("decls", .nodes
          (zpre ++ .obj [("tag", .str "funcDecl"), ("name", .str Name.Name),
            ("type", .node type), ("body", .node (.obj [("tag", .str "block"),
              ("body", .node (.obj [("tag", .str "seq"), ("stmts", .nodes
                (ypre ++ errorNode ("Unsupported language feature: " ++ typeName) ::
                  ypost))]))]))] :: zpost))])) := by
  have h1 : Translate ParseFloat (pre ++ s :: post) (ypre ++ y :: ypost) :=
    Translate_append ParseFloat pre (s :: post) ypre (y :: ypost) hpre
      (List.Forall₂.cons hs hpost)
  have h2 : Translate ParseFloat (pre ++ .Other typeName :: post)
      (ypre ++ errorNode ("Unsupported language feature: " ++ typeName) :: ypost) :=
    Translate_append ParseFloat pre (.Other typeName :: post) ypre _ hpre
      (List.Forall₂.cons rfl hpost)
  have b1 := parseBlockStmt_of_translate ParseFloat _ _ h1
  have b2 := parseBlockStmt_of_translate ParseFloat _ _ h2
  refine ⟨b1, (List.Forall₂.length_eq h1).symm, b2, ?_⟩
  intro Recv Name Type_ type dpre dpost zpre zpost ht hdpre hdpost
  have f1 : parseAst ParseFloat
      (.FuncDecl (.mk Recv Name Type_ (some (.mk (pre ++ s :: post))))) = .ok _ :=
    (parseAst_funcDecl_node ParseFloat Recv Name Type_ _ type _ ht b1)
  have f2 : parseAst ParseFloat
      (.FuncDecl (.mk Recv Name Type_ (some (.mk (pre ++ .Other typeName :: post))))) =
        .ok _ :=
    (parseAst_funcDecl_node ParseFloat Recv Name Type_ _ type _ ht b2)
  have t1 := Translate_append ParseFloat dpre _ zpre _ hdpre (List.Forall₂.cons f1 hdpost)
  have t2 := Translate_append ParseFloat dpre _ zpre _ hdpre (List.Forall₂.cons f2 hdpost)
  constructor
  · simp only [parseToJson, bind, Except.bind, (parseAll_ok_iff ParseFloat _ _).2 t1]
    rfl
  · simp only [parseToJson, bind, Except.bind, (parseAll_ok_iff ParseFloat _ _).2 t2]
    rfl

/-- C12, at the body of `spooky` in manual1.go, `z = z + x` followed by `println(z)`,
with the first statement replaced by a loop. -/
theorem parseBlockStmt_isolation_witness :
    Translate rejectFloat [] [] ∧
    parseAst rejectFloat tests.assignZ =
      .ok (.obj [("tag", .str "assign"), ("idents", .nodes [parseIdent ⟨"z"⟩]),
        ("vals", .nodes [.obj [("tag", .str "binop"), ("op", .str "+"),
          ("op1", .node (parseIdent ⟨"z"⟩)), ("op2", .node (parseIdent ⟨"x"⟩))]]),
        ("op", .str "=")]) ∧
    Translate rejectFloat [tests.printlnZ]
      [.obj [("tag", .str "call"), ("fun", .node (parseIdent ⟨"println"⟩)),
        ("args", .nodes [parseIdent ⟨"z"⟩])]] ∧
    parseBlockStmt rejectFloat (.mk ([] ++ .Other "ForStmt" :: [tests.printlnZ])) =
      .ok (.obj [("tag", .str "block"),
        ("body", .node (.obj [("tag", .str "seq"), ("stmts", .nodes
          ([] ++ errorNode ("Unsupported language feature: " ++ "ForStmt") ::
            [.obj [("tag", .str "call"), ("fun", .node (parseIdent ⟨"println"⟩)),
              ("args", .nodes [parseIdent ⟨"z"⟩])]]))]))]) :=
  have hpost : Translate rejectFloat [tests.printlnZ]
      [.obj [("tag", .str "call"), ("fun", .node (parseIdent ⟨"println"⟩)),
        ("args", .nodes [parseIdent ⟨"z"⟩])]] :=
    List.Forall₂.cons rfl List.Forall₂.nil
  ⟨List.Forall₂.nil, rfl, hpost,
    (parseBlockStmt_isolation rejectFloat [] [tests.printlnZ] tests.assignZ "ForStmt" [] _ _
      List.Forall₂.nil rfl hpost).2.2.1⟩

/-! ## Tags -/

theorem parseBlockStmt_tag (ParseFloat : String → Except String Float64)
    (Body : ast.BlockStmt) (n : Node) (h : parseBlockStmt ParseFloat Body = .ok n) :
    n.tag = some "block" := by
  obtain ⟨stmts⟩ := Body
  rw [parseBlockStmt] at h
  simp only [bind, Except.bind] at h
  cases hs : parseAll ParseFloat stmts with
  | error e => rw [hs] at h; cases h
  | ok ys => rw [hs] at h; cases h; rfl

theorem parseIfStmt_tag (ParseFloat : String → Except String Float64)
    (t : ast.IfStmt) (n : Node) (h : parseIfStmt ParseFloat t = .ok n) :
    n.tag = some "if" ∨ n.tag = some "error" := by
  obtain ⟨Init, Cond, Body, Else⟩ := t
  cases Init with
  | some i =>
    cases Else <;>
    · rw [parseIfStmt] at h
      simp only [Option.isSome_some, if_true] at h
      cases h
      exact Or.inr rfl
  | none =>
    cases hc : parseAst ParseFloat Cond with
    | error e =>
      cases Else <;>
      · rw [parseIfStmt] at h
        simp only [Option.isSome_none, Bool.false_eq_true, if_false, bind, Except.bind,
          hc] at h
        cases h
    | ok c =>
      cases hb : parseBlockStmt ParseFloat Body with
      | error e =>
        cases Else <;>
        · rw [parseIfStmt] at h
          simp only [Option.isSome_none, Bool.false_eq_true, if_false, bind, Except.bind,
            hc, hb] at h
          cases h
      | ok b =>
        cases Else with
        | none =>
          rw [parseIfStmt] at h
          simp only [Option.isSome_none, Bool.false_eq_true, if_false, bind, Except.bind,
            hc, hb] at h
          cases h
          exact Or.inl rfl
        | some e =>
          rw [parseIfStmt] at h
          simp only [Option.isSome_none, Bool.false_eq_true, if_false, bind, Except.bind,
            hc, hb] at h
          cases he : parseAst ParseFloat e with
          | error x => rw [he] at h; cases h
          | ok y => rw [he] at h; cases h; exact Or.inl rfl

/-- C13 (code at the failing input).  For the function type of
`func f(a, b int, c float64)` the node returned by `parseAst` has a nil entry, which
carries no tag, as last entry of `params` and of `paramTypes`: the write loop of
`parseFuncSignature` never writes position 2. -/
theorem parseAst_grouped_has_untagged_entry :
    parseAst rejectFloat (.FuncType tests.groupedType) =
      .ok (.obj [("tag", .str "funcType"),
        ("params", .nodes [parseIdent ⟨"a"⟩, parseIdent ⟨"c"⟩, Node.nil]),
        ("paramTypes", .nodes [parseIdent ⟨"int"⟩, parseIdent ⟨"float64"⟩, Node.nil]),
        ("results", .nodes []), ("resultTypes", .nodes [])]) ∧
    Node.nil.tag = none := by
  exact ⟨rfl, rfl⟩

/-- C14 (as stated, refuted).  For `if x \x7b\x7d else if y \x7b\x7d` the `else` entry of the
node returned is an if node: neither a block node nor a nop node. -/
theorem parseIfStmt_elseIf_is_if :
    parseIfStmt rejectFloat tests.elseIf =
      .ok (.obj [("tag", .str "if"), ("cond", .node (parseIdent ⟨"x"⟩)),
        ("then", .node (.obj [("tag", .str "block"),
          ("body", .node (.obj [("tag", .str "seq"), ("stmts", .nodes [])]))])),
        ("else", .node (.obj [("tag", .str "if"), ("cond", .node (parseIdent ⟨"y"⟩)),
          ("then", .node (.obj [("tag", .str "block"),
            ("body", .node (.obj [("tag", .str "seq"), ("stmts", .nodes [])]))])),
          ("else", .node (.obj [("tag", .str "nop")]))]))]) ∧
    Node.tag (.obj [("tag", .str "if"), ("cond", .node (parseIdent ⟨"y"⟩)),
          ("then", .node (.obj [("tag", .str "block"),
            ("body", .node (.obj [("tag", .str "seq"), ("stmts", .nodes [])]))])),
          ("else", .node (.obj [("tag", .str "nop")]))]) = some "if" := by
  exact ⟨rfl, rfl⟩

/-- C14 (amended).  For a conditional without initializer whose condition, body and
else-clause translate, `parseIfStmt` returns an if node whose `then` entry is a block
node and whose `else` entry is a nop node when there is no else-clause, a block node
when the else-clause is a block, and, when the else-clause is itself a conditional,
the translation of that conditional: an if node or an error node. -/
theorem parseIfStmt_then_else (ParseFloat : String → Except String Float64)
    (Cond : ast.Node) (Body : ast.BlockStmt) (Else : Option ast.Node) (cond thn : Node)
    (hc : parseAst ParseFloat Cond = .ok cond)
    (hb : parseAst ParseFloat (.BlockStmt Body) = .ok thn)
    (he : ∀ e, Else = some e → ∃ y, parseAst ParseFloat e = .ok y) :
    ∃ n els, parseIfStmt ParseFloat (.mk none Cond Body Else) = .ok n ∧
      n.tag = some "if" ∧
      n.get? "then" = some (.node thn) ∧ thn.tag = some "block" ∧
      n.get? "else" = some (.node els) ∧
      (Else = none → els.tag = some "nop") ∧
      (∀ e, Else = some e → parseAst ParseFloat e = .ok els) ∧
      (∀ b, Else = some (.BlockStmt b) → els.tag = some "block") ∧
      (∀ i, Else = some (.IfStmt i) → els.tag = some "if" ∨ els.tag = some "error") := by
  have hb1 : parseBlockStmt ParseFloat Body = .ok thn := hb
  have htag := parseBlockStmt_tag ParseFloat Body thn hb1
  cases Else with
  | none =>
    refine ⟨.obj [("tag", .str "if"), ("cond", .node cond), ("then", .node thn),
      ("else", .node (.obj [("tag", .str "nop")]))], .obj [("tag", .str "nop")],
      ?_, rfl, rfl, htag, rfl, fun _ => rfl, ?_, ?_, ?_⟩
    · rw [parseIfStmt]
      simp only [Option.isSome_none, Bool.false_eq_true, if_false, bind, Except.bind, hc, hb1]
      rfl
    · intro e h; cases h
    · intro b h; cases h
    · intro i h; cases h
  | some e =>
    obtain ⟨y, hy⟩ := he e rfl
    refine ⟨.obj [("tag", .str "if"), ("cond", .node cond), ("then", .node thn),
      ("else", .node y)], y, ?_, rfl, rfl, htag, rfl, ?_, ?_, ?_, ?_⟩
    · rw [parseIfStmt]
      simp only [Option.isSome_none, Bool.false_eq_true, if_false, bind, Except.bind, hc, hb1,
        hy]
      rfl
    · intro h; cases h
    · intro e1 h; cases h; exact hy
    · intro b h
      cases h
      exact parseBlockStmt_tag ParseFloat b y hy
    · intro i h
      cases h
      exact parseIfStmt_tag ParseFloat i y hy

/-- C14 (amended), at the conditional of `factorial` in test2.go with the else-clause
`\x7b return x \x7d`. -/
theorem parseIfStmt_then_else_witness :
    parseAst rejectFloat tests.factCond =
      .ok (.obj [("tag", .str "binop"), ("op", .str "=="), ("op1", .node (parseIdent ⟨"x"⟩)),
        ("op2", .node (.obj [("tag", .str "lit"), ("kind", .str "int"), ("val", .int 0)]))]) ∧
    parseAst rejectFloat (.BlockStmt tests.factThen) =
      .ok (.obj [("tag", .str "block"), ("body", .node (.obj [("tag", .str "seq"),
        ("stmts", .nodes [.obj [("tag", .str "return"),
          ("results", .nodes [.obj [("tag", .str "lit"), ("kind", .str "int"),
            ("val", .int 1)]])]])]))]) ∧
    (∀ e, some (ast.Node.BlockStmt tests.returnX) = some e →
      ∃ y, parseAst rejectFloat e = .ok y) ∧
    ∃ n els, parseIfStmt rejectFloat
        (.mk none tests.factCond tests.factThen (some (.BlockStmt tests.returnX))) = .ok n ∧
      n.tag = some "if" ∧
      n.get? "then" = some (.node (.obj [("tag", .str "block"),
        ("body", .node (.obj [("tag", .str "seq"),
          ("stmts", .nodes [.obj [("tag", .str "return"),
            ("results", .nodes [.obj [("tag", .str "lit"), ("kind", .str "int"),
              ("val", .int 1)]])]])]))])) ∧
      Node.tag (.obj [("tag", .str "block"), ("body", .node (.obj [("tag", .str "seq"),
        ("stmts", .nodes [.obj [("tag", .str "return"),
          ("results", .nodes [.obj [("tag", .str "lit"), ("kind", .str "int"),
            ("val", .int 1)]])]])]))]) = some "block" ∧
      n.get? "else" = some (.node els) ∧
      (some (ast.Node.BlockStmt tests.returnX) = none → els.tag = some "nop") ∧
      (∀ e, some (ast.Node.BlockStmt tests.returnX) = some e →
        parseAst rejectFloat e = .ok els) ∧
      (∀ b, some (ast.Node.BlockStmt tests.returnX) = some (.BlockStmt b) →
        els.tag = some "block") ∧
      (∀ i, some (ast.Node.BlockStmt tests.returnX) = some (.IfStmt i) →
        els.tag = some "if" ∨ els.tag = some "error") :=
  have he : ∀ e, some (ast.Node.BlockStmt tests.returnX) = some e →
      ∃ y, parseAst rejectFloat e = .ok y := by
    intro e h
    cases h
    exact ⟨_, rfl⟩
  ⟨rfl, rfl, he, parseIfStmt_then_else rejectFloat tests.factCond tests.factThen
    (some (.BlockStmt tests.returnX)) _ _ rfl rfl he⟩

/-! ## Generics and literal kinds -/

/-- C17.  For a function type with type parameters `parseFuncType` returns the error
node "Generics not supported", whatever its parameter and result lists are (neither
is translated); for a function type without type parameters, its two lists
translating, it returns the funcType node made of their names and types, and any
node it returns for such a type is a funcType node. -/
theorem parseFuncType_generics (ParseFloat : String → Except String Float64)
    (TypeParams : ast.FieldList) (Params Results : Option ast.FieldList) :
    parseFuncType ParseFloat (.mk (some TypeParams) Params Results) =
      .ok (.obj [("tag", .str "error"), ("val", .str "Generics not supported")]) ∧
    (∀ params paramTypes results resultTypes,
      parseFuncSignature ParseFloat Params = .ok (params, paramTypes) →
      parseFuncSignature ParseFloat Results = .ok (results, resultTypes) →
      parseFuncType ParseFloat (.mk none Params Results) =
        .ok (.obj [("tag", .str "funcType"), ("params", .nodes params),
          ("paramTypes", .nodes paramTypes), ("results", .nodes results),
          ("resultTypes", .nodes resultTypes)])) ∧
    (∀ n, parseFuncType ParseFloat (.mk none Params Results) = .ok n →
      n.tag = some "funcType") := by
  refine ⟨?_, ?_, ?_⟩
  · rw [parseFuncType]
    simp only [Option.isSome_some, if_true]
  · intro params paramTypes results resultTypes hp hr
    rw [parseFuncType]
    simp only [Option.isSome_none, Bool.false_eq_true, if_false, bind, Except.bind, hp, hr]
    rfl
  · intro n h
    rw [parseFuncType] at h
    simp only [Option.isSome_none, Bool.false_eq_true, if_false, bind, Except.bind] at h
    cases hp : parseFuncSignature ParseFloat Params with
    | error e => rw [hp] at h; cases h
    | ok p =>
      rw [hp] at h
      cases hr : parseFuncSignature ParseFloat Results with
      | error e => rw [hr] at h; cases h
      | ok r => rw [hr] at h; cases h; rfl

/-- C17, at the type of `func sqrt_aux(x, a float64) float64` of test7.go, and at the
generic type of `func f[T any](x T)`. -/
theorem parseFuncType_generics_witness :
    parseFuncSignature rejectFloat (some (.mk [tests.group ["x", "a"] "float64"])) =
      .ok ([parseIdent ⟨"x"⟩, parseIdent ⟨"a"⟩], [parseIdent ⟨"float64"⟩, parseIdent ⟨"float64"⟩]) ∧
    parseFuncSignature rejectFloat (some (.mk [tests.unnamed "float64"])) =
      .ok ([], [parseIdent ⟨"float64"⟩]) ∧
    parseFuncType rejectFloat tests.sqrtAuxType =
      .ok (.obj [("tag", .str "funcType"),
        ("params", .nodes [parseIdent ⟨"x"⟩, parseIdent ⟨"a"⟩]),
        ("paramTypes", .nodes [parseIdent ⟨"float64"⟩, parseIdent ⟨"float64"⟩]),
        ("results", .nodes []), ("resultTypes", .nodes [parseIdent ⟨"float64"⟩])]) ∧
    parseFuncType rejectFloat tests.genericType =
      .ok (.obj [("tag", .str "error"), ("val", .str "Generics not supported")]) :=
  ⟨rfl, rfl,
    (parseFuncType_generics rejectFloat (.mk []) (some (.mk [tests.group ["x", "a"] "float64"]))
      (some (.mk [tests.unnamed "float64"]))).2.1 _ _ _ _ rfl rfl,
    (parseFuncType_generics rejectFloat (.mk [tests.group ["T"] "any"])
      (some (.mk [tests.group ["x"] "T"])) none).1⟩

/-- C18.  For a basic literal whose kind is neither INT nor FLOAT, whatever its
text, `parseBasicLit` returns the error node whose val is "Unsupported literal type "
followed by the name of the kind (STRING, CHAR and IMAG for the string, rune and
imaginary literals); and it returns a lit node only for the kinds INT and FLOAT. -/
theorem parseBasicLit_kinds (ParseFloat : String → Except String Float64)
    (basicLit : ast.BasicLit) :
    (basicLit.Kind ≠ Token.INT → basicLit.Kind ≠ Token.FLOAT →
      parseBasicLit ParseFloat basicLit =
        .obj [("tag", .str "error"),
          ("val", .str ("Unsupported literal type " ++ basicLit.Kind.String))]) ∧
    ((parseBasicLit ParseFloat basicLit).tag = some "lit" →
      basicLit.Kind = Token.INT ∨ basicLit.Kind = Token.FLOAT) ∧
    Token.STRING.String = "STRING" ∧ Token.CHAR.String = "CHAR" ∧
    Token.IMAG.String = "IMAG" := by
  have key : basicLit.Kind ≠ Token.INT → basicLit.Kind ≠ Token.FLOAT →
      parseBasicLit ParseFloat basicLit =
        .obj [("tag", .str "error"),
          ("val", .str ("Unsupported literal type " ++ basicLit.Kind.String))] := by
    intro h1 h2
    unfold parseBasicLit
    rw [if_neg h1, if_neg h2]
  refine ⟨key, ?_, rfl, rfl, rfl⟩
  intro h
  by_cases h1 : basicLit.Kind = Token.INT
  · exact Or.inl h1
  · by_cases h2 : basicLit.Kind = Token.FLOAT
    · exact Or.inr h2
    · rw [key h1 h2] at h
      simp [Node.tag, Node.get?, lookup] at h

/-- C18, at the string literal `"hi"`. -/
theorem parseBasicLit_kinds_witness :
    tests.stringLit.Kind ≠ Token.INT ∧ tests.stringLit.Kind ≠ Token.FLOAT ∧
    parseBasicLit rejectFloat tests.stringLit =
      .obj [("tag", .str "error"),
        ("val", .str ("Unsupported literal type " ++ tests.stringLit.Kind.String))] :=
  ⟨by decide, by decide,
    (parseBasicLit_kinds rejectFloat tests.stringLit).1 (by decide) (by decide)⟩

/-! ## Write positions of `parseFuncSignature` -/

theorem numParams_nil : numParams [] = 0 := rfl

theorem position_le_numParams (fields : List ast.Field) (hn : allNamed fields) :
    ∀ (i : Nat) (field : ast.Field), fields.get? i = some field →
      i + field.Names.length ≤ numParams fields := by
  induction fields with
  | nil => intro i field h; simp at h
  | cons f rest ih =>
    intro i field h
    rw [numParams_cons]
    cases i with
    | zero =>
      simp only [List.get?_cons_zero, Option.some.injEq] at h
      subst h
      omega
    | succ i =>
      simp only [List.get?_cons_succ] at h
      have h1 := ih (fun g hg => hn g (List.mem_cons_of_mem _ hg)) i field h
      have h2 : 0 < f.Names.length := List.length_pos.mpr (hn f (List.mem_cons_self _ _))
      omega

/-- C19.  In `parseFuncSignature`, for a field list in which every group has at least
one name, every write position `i+j` (group `i`, name `j` of the group) is below the
total number of names, and the write loops end without a panic on slices of that
length; and when the first group has names, a write position can reach the total
number of names only if a group after the first has no names. -/
theorem writeFields_in_range (fields : List ast.Field) :
    (allNamed fields →
      (∀ (i j : Nat) (field : ast.Field), fields.get? i = some field →
        j < field.Names.length → i + j < numParams fields) ∧
      (∀ parsedTypes : List Node, parsedTypes.length = fields.length →
        ∃ names types,
          writeFields parsedTypes fields 0
            (make (numParams fields), make (numParams fields)) = .ok (names, types))) ∧
    (∀ (first : ast.Field) (rest : List ast.Field), fields = first :: rest →
      first.Names ≠ [] →
      (∃ (i j : Nat) (field : ast.Field), fields.get? i = some field ∧
        j < field.Names.length ∧ numParams fields ≤ i + j) →
      ∃ field ∈ rest, field.Names = []) := by
  have bound : allNamed fields →
      ∀ (i j : Nat) (field : ast.Field), fields.get? i = some field →
        j < field.Names.length → i + j < numParams fields := by
    intro hn i j field hf hj
    have := position_le_numParams fields hn i field hf
    omega
  refine ⟨fun hn => ⟨bound hn, ?_⟩, ?_⟩
  · intro parsedTypes hlen
    exact writeFields_ok parsedTypes fields 0 _ _ hn (by omega) (by simp [make]) rfl
  · intro first rest hfields hfirst ⟨i, j, field, hf, hj, hge⟩
    by_contra hall
    have hn : allNamed fields := by
      intro g hg
      rw [hfields] at hg
      rcases List.mem_cons.1 hg with h | h
      · rw [h]; exact hfirst
      · intro hg0
        exact hall ⟨g, h, hg0⟩
    have := bound hn i j field hf hj
    omega

/-- C19, at the parameter list `(a, b int, c float64)`. -/
theorem writeFields_in_range_witness :
    allNamed [tests.group ["a", "b"] "int", tests.group ["c"] "float64"] ∧
    (∀ (i j : Nat) (field : ast.Field),
      [tests.group ["a", "b"] "int", tests.group ["c"] "float64"].get? i = some field →
      j < field.Names.length →
      i + j < numParams [tests.group ["a", "b"] "int", tests.group ["c"] "float64"]) ∧
    (∀ parsedTypes : List Node,
      parsedTypes.length =
        [tests.group ["a", "b"] "int", tests.group ["c"] "float64"].length →
      ∃ names types,
        writeFields parsedTypes [tests.group ["a", "b"] "int", tests.group ["c"] "float64"] 0
          (make (numParams [tests.group ["a", "b"] "int", tests.group ["c"] "float64"]),
            make (numParams [tests.group ["a", "b"] "int", tests.group ["c"] "float64"])) =
          .ok (names, types)) :=
  have hn : allNamed [tests.group ["a", "b"] "int", tests.group ["c"] "float64"] := by
    intro field hf
    simp only [List.mem_cons, List.mem_singleton, List.not_mem_nil, or_false] at hf
    rcases hf with h | h <;> subst h <;> simp [tests.group, ast.Field.Names]
  ⟨hn, (writeFields_in_range _).1 hn⟩

theorem set_length_append (A C : List Node) (x a : Node) :
    (A ++ x :: C).set A.length a = A ++ a :: C := by
  induction A with
  | nil => rfl
  | cons y A ih => simp only [List.cons_append, List.length_cons, List.set_cons_succ, ih]

theorem store_at_length (A C : List Node) (x a : Node) :
    store (A ++ x :: C) A.length a = .ok (A ++ a :: C) := by
  rw [store_ok _ _ _ (by simp), set_length_append]

theorem load_at_length (A C : List Node) (x : Node) :
    load (A ++ x :: C) A.length = .ok x := by
  induction A with
  | nil => rfl
  | cons y A ih =>
    unfold load at ih ⊢
    simpa using ih

theorem writeNames_eq (parsedTypes : List Node) (i : Nat) (t : Node)
    (ht : load parsedTypes i = .ok t) (B B1 : List Node) (ids : List ast.Ident) :
    ∀ (j : Nat) (A X A1 X1 : List Node),
      A.length = i + j → A1.length = i + j → X.length = ids.length →
      X1.length = ids.length →
      writeNames parsedTypes i ids j (A ++ X ++ B, A1 ++ X1 ++ B1) =
        .ok (A ++ ids.map parseIdent ++ B, A1 ++ List.replicate ids.length t ++ B1) := by
  induction ids with
  | nil =>
    intro j A X A1 X1 _ _ hX hX1
    rw [List.length_eq_zero.1 hX, List.length_eq_zero.1 hX1]
    rfl
  | cons name rest ih =>
    intro j A X A1 X1 hA hA1 hX hX1
    match X, X1, hX, hX1 with
    | x :: X, x1 :: X1, hX, hX1 =>
      simp only [List.length_cons, Nat.add_right_cancel_iff] at hX hX1
      simp only [writeNames, bind, Except.bind, List.append_assoc, List.cons_append]
      rw [← hA, store_at_length, ht]
      dsimp only
      rw [hA, ← hA1, store_at_length]
      dsimp only
      have h := ih (j + 1) (A ++ [parseIdent name]) X (A1 ++ [t]) X1
        (by simp; omega) (by simp; omega) hX hX1
      simpa [List.replicate_succ] using h

theorem writeFields_eq (B B1 : List Node) (fields : List ast.Field) :
    ∀ (pre types A X A1 X1 : List Node),
      singlesButLast fields = true → types.length = fields.length →
      A.length = pre.length → A1.length = pre.length →
      X.length = numParams fields → X1.length = numParams fields →
      writeFields (pre ++ types) fields pre.length (A ++ X ++ B, A1 ++ X1 ++ B1) =
        .ok (A ++ flatNames fields ++ B, A1 ++ flatTypes fields types ++ B1) := by
  induction fields with
  | nil =>
    intro pre types A X A1 X1 _ _ _ _ hX hX1
    rw [numParams_nil] at hX hX1
    rw [List.length_eq_zero.1 hX, List.length_eq_zero.1 hX1]
    cases types <;> rfl
  | cons field rest ih =>
    intro pre types A X A1 X1 hs hlen hA hA1 hX hX1
    match types, hlen with
    | t :: types, hlen =>
      simp only [List.length_cons, Nat.add_right_cancel_iff] at hlen
      rw [numParams_cons] at hX hX1
      have hload : load (pre ++ t :: types) pre.length = .ok t := load_at_length pre types t
      have hw := writeNames_eq (pre ++ t :: types) pre.length t hload
        (X.drop field.Names.length ++ B) (X1.drop field.Names.length ++ B1) field.Names 0
        A (X.take field.Names.length) A1 (X1.take field.Names.length)
        (by omega) (by omega) (by simp; omega) (by simp; omega)
      have e1 : A ++ X ++ B =
          A ++ X.take field.Names.length ++ (X.drop field.Names.length ++ B) := by
        simp only [List.append_assoc]
        rw [← List.append_assoc (List.take _ X), List.take_append_drop]
      have e2 : A1 ++ X1 ++ B1 =
          A1 ++ X1.take field.Names.length ++ (X1.drop field.Names.length ++ B1) := by
        simp only [List.append_assoc]
        rw [← List.append_assoc (List.take _ X1), List.take_append_drop]
      simp only [writeFields, bind, Except.bind]
      rw [e1, e2, hw]
      dsimp only
      cases rest with
      | nil =>
        have hd : X.drop field.Names.length = [] := by
          apply List.length_eq_zero.1
          simp [numParams_nil] at hX ⊢
          omega
        have hd1 : X1.drop field.Names.length = [] := by
          apply List.length_eq_zero.1
          simp [numParams_nil] at hX1 ⊢
          omega
        rw [hd, hd1]
        cases types with
        | nil => simp [writeFields, flatNames, flatTypes]
        | cons _ _ => simp at hlen
      | cons g rest =>
        have hs1 : field.Names.length = 1 ∧ singlesButLast (g :: rest) = true := by
          simpa [singlesButLast] using hs
        obtain ⟨name, hname⟩ := List.length_eq_one.1 hs1.1
        have h := ih (pre ++ [t]) types (A ++ [parseIdent name])
          (X.drop field.Names.length) (A1 ++ [t]) (X1.drop field.Names.length) hs1.2 hlen
          (by simp; omega) (by simp; omega) (by simp; omega) (by simp; omega)
        rw [hname] at h ⊢
        simpa [flatNames, flatTypes, hname] using h

theorem numParams_take_singles (fields : List ast.Field)
    (hs : singlesButLast fields = true) :
    ∀ i, i < fields.length → numParams (fields.take i) = i := by
  induction fields with
  | nil => intro i h; simp at h
  | cons field rest ih =>
    intro i h
    cases i with
    | zero => rfl
    | succ i =>
      cases rest with
      | nil => simp at h
      | cons g rest =>
        have hs1 : field.Names.length = 1 ∧ singlesButLast (g :: rest) = true := by
          simpa [singlesButLast] using hs
        rw [List.take_succ_cons, numParams_cons, hs1.1, ih hs1.2 i (by simpa using h)]
        omega

theorem flatNames_tag (fields : List ast.Field) :
    ∀ n ∈ flatNames fields, n.tag = some "ident" := by
  induction fields with
  | nil => intro n h; simp [flatNames] at h
  | cons field rest ih =>
    intro n h
    simp only [flatNames, List.mem_append, List.mem_map] at h
    rcases h with ⟨name, _, rfl⟩ | h
    · rfl
    · exact ih n h

theorem flatNames_length (fields : List ast.Field) :
    (flatNames fields).length = numParams fields := by
  induction fields with
  | nil => rfl
  | cons field rest ih => simp [flatNames, numParams_cons, ih]

theorem flatTypes_length (fields : List ast.Field) :
    ∀ types : List Node, types.length = fields.length →
      (flatTypes fields types).length = numParams fields := by
  induction fields with
  | nil => intro types _; cases types <;> rfl
  | cons field rest ih =>
    intro types h
    match types, h with
    | t :: types, h =>
      simp only [List.length_cons, Nat.add_right_cancel_iff] at h
      simp [flatTypes, numParams_cons, ih types h]

/-- C20.  In `parseFuncSignature`, for a field list whose first group has names, whose
groups except possibly the last have exactly one name each and whose group types
translate: the write position `i+j` of a name is its flat source position, the names
returned are the flattening of the groups' names in order, as ident nodes (none
overwritten, none left unset), and the types returned hold, for each name, the
translation of the type of its own group. -/
theorem parseFuncSignature_singles (ParseFloat : String → Except String Float64)
    (first : ast.Field) (rest : List ast.Field) (types : List Node)
    (hfirst : first.Names ≠ [])
    (hs : singlesButLast (first :: rest) = true)
    (ht : TypesTranslate ParseFloat (first :: rest) types) :
    parseFuncSignature ParseFloat (some (.mk (first :: rest))) =
      .ok (flatNames (first :: rest), flatTypes (first :: rest) types) ∧
    (∀ i, i < (first :: rest).length → ∀ j, numParams ((first :: rest).take i) + j = i + j) ∧
    (flatNames (first :: rest)).length = numParams (first :: rest) ∧
    (flatTypes (first :: rest) types).length = numParams (first :: rest) ∧
    (∀ n ∈ flatNames (first :: rest), n.tag = some "ident") := by
  have hlen : types.length = (first :: rest).length := (List.Forall₂.length_eq ht).symm
  refine ⟨?_, ?_, flatNames_length _, flatTypes_length _ _ hlen, flatNames_tag _⟩
  · rw [parseFuncSignature_cons ParseFloat first rest types ht, if_neg hfirst]
    have h := writeFields_eq [] [] (first :: rest) [] types [] (make (numParams (first :: rest)))
      [] (make (numParams (first :: rest))) hs hlen rfl rfl (by simp [make]) (by simp [make])
    simpa using h
  · intro i hi j
    rw [numParams_take_singles _ hs i hi]

/-- C20, at the parameter list `(a int, b, c float64)`. -/
theorem parseFuncSignature_singles_witness :
    (tests.group ["a"] "int").Names ≠ [] ∧
    singlesButLast tests.singleThenPair = true ∧
    TypesTranslate rejectFloat tests.singleThenPair
      [parseIdent ⟨"int"⟩, parseIdent ⟨"float64"⟩] ∧
    parseFuncSignature rejectFloat (some (.mk tests.singleThenPair)) =
      .ok (flatNames tests.singleThenPair,
        flatTypes tests.singleThenPair [parseIdent ⟨"int"⟩, parseIdent ⟨"float64"⟩]) ∧
    flatNames tests.singleThenPair =
      [parseIdent ⟨"a"⟩, parseIdent ⟨"b"⟩, parseIdent ⟨"c"⟩] ∧
    flatTypes tests.singleThenPair [parseIdent ⟨"int"⟩, parseIdent ⟨"float64"⟩] =
      [parseIdent ⟨"int"⟩, parseIdent ⟨"float64"⟩, parseIdent ⟨"float64"⟩] :=
  have ht : TypesTranslate rejectFloat tests.singleThenPair
      [parseIdent ⟨"int"⟩, parseIdent ⟨"float64"⟩] :=
    List.Forall₂.cons rfl (List.Forall₂.cons rfl List.Forall₂.nil)
  ⟨by simp [tests.group, ast.Field.Names], rfl, ht,
    (parseFuncSignature_singles rejectFloat (tests.group ["a"] "int")
      [tests.group ["b", "c"] "float64"] _ (by simp [tests.group, ast.Field.Names]) rfl ht).1,
    rfl, rfl⟩

/-! ## Parentheses -/

theorem numParams_removeParensFields (fields : List ast.Field) :
    numParams (removeParensFields fields) = numParams fields := by
  induction fields with
  | nil => rfl
  | cons field rest ih =>
    obtain ⟨names, ty⟩ := field
    rw [removeParensFields, numParams_cons, numParams_cons, ih]
    rfl

theorem writeFields_removeParensFields (parsedTypes : List Node) (fields : List ast.Field) :
    ∀ (i : Nat) (acc : List Node × List Node),
      writeFields parsedTypes (removeParensFields fields) i acc =
        writeFields parsedTypes fields i acc := by
  induction fields with
  | nil => intro i acc; rfl
  | cons field rest ih =>
    intro i acc
    obtain ⟨names, ty⟩ := field
    rw [removeParensFields]
    simp only [writeFields, ast.Field.Names, ih]

mutual

theorem parseAst_removeParens (ParseFloat : String → Except String Float64) :
    ∀ n : ast.Node, parseAst ParseFloat (removeParens n) = parseAst ParseFloat n
  | .ExprStmt (.mk X) => by
    simp only [removeParens, parseAst, parseAst_removeParens ParseFloat X]
  | .BasicLit t => rfl
  | .FuncLit t => by
    simp only [removeParens, parseAst, parseFuncLit_removeParens ParseFloat t]
  | .Ident t => rfl
  | .BinaryExpr (.mk X Op Y) => by
    simp only [removeParens, parseAst, parseBinaryExpr, parseAst_removeParens ParseFloat X,
      parseAst_removeParens ParseFloat Y]
  | .UnaryExpr (.mk Op X) => by
    simp only [removeParens, parseAst, parseUnaryExpr, parseAst_removeParens ParseFloat X]
  | .ParenExpr (.mk X) => by
    simp only [removeParens, parseAst, parseParenExpr, parseAst_removeParens ParseFloat X]
  | .DeclStmt (.mk Decl) => by
    simp only [removeParens, parseAst, parseAst_removeParens ParseFloat Decl]
  | .GenDecl (.mk Lparen Tok Specs) => by
    simp only [removeParens, parseAst, parseGenDecl,
      parseFirstSpec_removeParens ParseFloat Specs]
  | .FuncDecl (.mk Recv Name Type_ Body) => by
    cases Body with
    | none =>
      simp only [removeParens, removeParensBody, parseAst, parseFuncDecl,
        parseFuncType_removeParens ParseFloat Type_]
    | some b =>
      simp only [removeParens, removeParensBody, parseAst, parseFuncDecl,
        parseFuncType_removeParens ParseFloat Type_,
        parseBlockStmt_removeParens ParseFloat b]
  | .AssignStmt (.mk Lhs Tok Rhs) => by
    simp only [removeParens, parseAst, parseAssignStmt, length_removeParensAll,
      parseAll_removeParens ParseFloat Lhs, parseAll_removeParens ParseFloat Rhs]
  | .FuncType t => by
    simp only [removeParens, parseAst, parseFuncType_removeParens ParseFloat t]
  | .BlockStmt t => by
    simp only [removeParens, parseAst, parseBlockStmt_removeParens ParseFloat t]
  | .CallExpr t => by
    simp only [removeParens, parseAst, parseCallExpr_removeParens ParseFloat t]
  | .ReturnStmt (.mk Results) => by
    simp only [removeParens, parseAst, parseReturnStmt,
      parseAll_removeParens ParseFloat Results]
  | .IfStmt t => by
    simp only [removeParens, parseAst, parseIfStmt_removeParens ParseFloat t]
  | .GoStmt (.mk Call) => by
    simp only [removeParens, parseAst, parseGoStmt,
      parseCallExpr_removeParens ParseFloat Call]
  | .Other typeName => rfl

theorem parseAll_removeParens (ParseFloat : String → Except String Float64) :
    ∀ xs : List ast.Node,
      parseAll ParseFloat (removeParensAll xs) = parseAll ParseFloat xs
  | [] => rfl
  | x :: rest => by
    simp only [removeParensAll, parseAll, parseAst_removeParens ParseFloat x,
      parseAll_removeParens ParseFloat rest]

theorem length_removeParensAll :
    ∀ xs : List ast.Node, (removeParensAll xs).length = xs.length
  | [] => rfl
  | x :: rest => by
    simp only [removeParensAll, List.length_cons, length_removeParensAll rest]

theorem parseFuncLit_removeParens (ParseFloat : String → Except String Float64) :
    ∀ t : ast.FuncLit,
      parseFuncLit ParseFloat (removeParensFuncLit t) = parseFuncLit ParseFloat t
  | .mk Type_ Body => by
    simp only [removeParensFuncLit, parseFuncLit, parseFuncType_removeParens ParseFloat Type_,
      parseBlockStmt_removeParens ParseFloat Body]

theorem parseFuncType_removeParens (ParseFloat : String → Except String Float64) :
    ∀ t : ast.FuncType,
      parseFuncType ParseFloat (removeParensFuncType t) = parseFuncType ParseFloat t
  | .mk TypeParams Params Results => by
    have h : (removeParensFieldList TypeParams).isSome = TypeParams.isSome := by
      cases TypeParams with
      | none => rfl
      | some fl => cases fl; rfl
    simp only [removeParensFuncType, parseFuncType, h,
      parseFuncSignature_removeParens ParseFloat Params,
      parseFuncSignature_removeParens ParseFloat Results]

theorem parseFuncSignature_removeParens (ParseFloat : String → Except String Float64) :
    ∀ fl : Option ast.FieldList,
      parseFuncSignature ParseFloat (removeParensFieldList fl) =
        parseFuncSignature ParseFloat fl
  | none => rfl
  | some (.mk fields) => by
    have h := parseFieldTypes_removeParens ParseFloat fields
    cases fields with
    | nil => rfl
    | cons first rest =>
      obtain ⟨names, ty⟩ := first
      rw [removeParensFieldList]
      have e : removeParensFields (.mk names ty :: rest) =
          .mk names (removeParens ty) :: removeParensFields rest := by
        rw [removeParensFields]
      have hn := numParams_removeParensFields (.mk names ty :: rest)
      rw [e] at h hn
      rw [e]
      simp only [parseFuncSignature, h, hn, ast.Field.Names]
      rw [← e]
      simp only [writeFields_removeParensFields]

theorem parseFieldTypes_removeParens (ParseFloat : String → Except String Float64) :
    ∀ fields : List ast.Field,
      parseFieldTypes ParseFloat (removeParensFields fields) =
        parseFieldTypes ParseFloat fields
  | [] => rfl
  | .mk Names Type_ :: rest => by
    simp only [removeParensFields, parseFieldTypes, parseAst_removeParens ParseFloat Type_,
      parseFieldTypes_removeParens ParseFloat rest]

theorem parseBlockStmt_removeParens (ParseFloat : String → Except String Float64) :
    ∀ t : ast.BlockStmt,
      parseBlockStmt ParseFloat (removeParensBlock t) = parseBlockStmt ParseFloat t
  | .mk stmts => by
    simp only [removeParensBlock, parseBlockStmt, parseAll_removeParens ParseFloat stmts]

theorem parseCallExpr_removeParens (ParseFloat : String → Except String Float64) :
    ∀ t : ast.CallExpr,
      parseCallExpr ParseFloat (removeParensCall t) = parseCallExpr ParseFloat t
  | .mk Fun Args => by
    simp only [removeParensCall, parseCallExpr, parseAst_removeParens ParseFloat Fun,
      parseAll_removeParens ParseFloat Args]

theorem parseIfStmt_removeParens (ParseFloat : String → Except String Float64) :
    ∀ t : ast.IfStmt,
      parseIfStmt ParseFloat (removeParensIf t) = parseIfStmt ParseFloat t
  | .mk Init Cond Body Else => by
    have h : (removeParensOpt Init).isSome = Init.isSome := by
      cases Init <;> rfl
    cases Else with
    | none =>
      simp only [removeParensIf, removeParensOpt, parseIfStmt, h,
        parseAst_removeParens ParseFloat Cond, parseBlockStmt_removeParens ParseFloat Body]
    | some e =>
      simp only [removeParensIf, removeParensOpt, parseIfStmt, h,
        parseAst_removeParens ParseFloat Cond, parseBlockStmt_removeParens ParseFloat Body,
        parseAst_removeParens ParseFloat e]

theorem parseFirstSpec_removeParens (ParseFloat : String → Except String Float64) :
    ∀ specs : List ast.Spec,
      parseFirstSpec ParseFloat (removeParensSpecs specs) = parseFirstSpec ParseFloat specs
  | [] => rfl
  | .ValueSpec (.mk Names Type_ Values) :: rest => by
    cases Type_ with
    | none => simp only [removeParensSpecs, removeParensOpt, parseFirstSpec, parseValueSpec]
    | some ty =>
      simp only [removeParensSpecs, removeParensOpt, parseFirstSpec, parseValueSpec,
        parseAst_removeParens ParseFloat ty, parseAll_removeParens ParseFloat Values]
  | .ImportSpec :: rest => by simp only [removeParensSpecs, parseFirstSpec]
  | .TypeSpec :: rest => by simp only [removeParensSpecs, parseFirstSpec]

end

/-- C16.  Parentheses are transparent: the translation of a parenthesized expression
is the translation of the expression inside, and the translation of any syntax tree
is the translation of the tree with every parenthesization removed, at every depth;
in particular no IR node stands for a parenthesis. -/
theorem parseAst_parens_transparent (ParseFloat : String → Except String Float64)
    (e : ast.Node) :
    parseAst ParseFloat (.ParenExpr (.mk e)) = parseAst ParseFloat e ∧
    parseAst ParseFloat (removeParens e) = parseAst ParseFloat e :=
  ⟨rfl, parseAst_removeParens ParseFloat e⟩

/-! ## Integer literals -/

section
open strconv

theorem digitOf_cases (c d : Nat) (h : digitOf c = some d) :
    (48 ≤ c ∧ c ≤ 57 ∧ d = c - 48) ∨ (97 ≤ c ∧ c ≤ 102 ∧ d = c - 87) ∨
      (65 ≤ c ∧ c ≤ 70 ∧ d = c - 55) := by
  unfold digitOf at h
  have e0 : '0'.toNat = 48 := rfl
  have e9 : '9'.toNat = 57 := rfl
  have ea : 'a'.toNat = 97 := rfl
  have ef : 'f'.toNat = 102 := rfl
  have eA : 'A'.toNat = 65 := rfl
  have eF : 'F'.toNat = 70 := rfl
  rw [e0, e9, ea, ef, eA, eF] at h
  split at h
  · next h1 =>
    cases h
    exact Or.inl ⟨h1.1, h1.2, rfl⟩
  · split at h
    · next h1 =>
      cases h
      exact Or.inr (Or.inl ⟨h1.1, h1.2, by omega⟩)
    · split at h
      · next h1 =>
        cases h
        exact Or.inr (Or.inr ⟨h1.1, h1.2, by omega⟩)
      · cases h

theorem digitValue_cases (base c d : Nat) (h : digitValue base c = some d) :
    d < base ∧ ((48 ≤ c ∧ c ≤ 57 ∧ d = c - 48) ∨ (97 ≤ c ∧ c ≤ 102 ∧ d = c - 87) ∨
      (65 ≤ c ∧ c ≤ 70 ∧ d = c - 55)) := by
  unfold digitValue at h
  cases hd : digitOf c with
  | none => rw [hd] at h; cases h
  | some d1 =>
    rw [hd] at h
    dsimp only at h
    split at h
    · next hlt =>
      cases h
      exact ⟨hlt, digitOf_cases c d hd⟩
    · cases h

/-- The digit that the loop of `ParseUint` reads off a code unit. -/
theorem scan_digit (c d : Nat)
    (h : (48 ≤ c ∧ c ≤ 57 ∧ d = c - 48) ∨ (97 ≤ c ∧ c ≤ 102 ∧ d = c - 87) ∨
      (65 ≤ c ∧ c ≤ 70 ∧ d = c - 55)) :
    c ≠ '_'.toNat ∧
    (if '0'.toNat ≤ c ∧ c ≤ '9'.toNat then some (c - '0'.toNat)
      else if 'a'.toNat ≤ lower c ∧ lower c ≤ 'z'.toNat then some (lower c - 'a'.toNat + 10)
      else none) = some d := by
  rcases h with ⟨h1, h2, rfl⟩ | ⟨h1, h2, rfl⟩ | ⟨h1, h2, rfl⟩
  · interval_cases c <;> exact ⟨by decide, rfl⟩
  · interval_cases c <;> exact ⟨by decide, rfl⟩
  · interval_cases c <;> exact ⟨by decide, rfl⟩

theorem scanDigits_underscore (base cutoff maxVal : Nat) (cs : List Nat) (n : Nat) (us : Bool) :
    scanDigits base cutoff maxVal ('_'.toNat :: cs) n us =
      scanDigits base cutoff maxVal cs n true := by
  rw [scanDigits]
  simp

theorem scanDigits_digit (base c d : Nat) (cs : List Nat) (n : Nat) (us : Bool)
    (hbase : base = 2 ∨ base = 8 ∨ base = 10 ∨ base = 16)
    (hd : digitValue base c = some d) (hn : n < 2 ^ 64) :
    scanDigits base (maxUint64 / base + 1) (2 ^ IntSize - 1) (c :: cs) n us =
      if n * base + d < 2 ^ 64 then
        scanDigits base (maxUint64 / base + 1) (2 ^ IntSize - 1) cs (n * base + d) us
      else .fail (2 ^ IntSize - 1) .ErrRange := by
  obtain ⟨hlt, hc⟩ := digitValue_cases base c d hd
  obtain ⟨h95, hdig⟩ := scan_digit c d hc
  rw [scanDigits, if_neg h95]
  simp only [hdig]
  rw [if_neg (by omega)]
  have hm : maxUint64 = 18446744073709551615 := by decide
  have hi : IntSize = 64 := rfl
  rw [hm, hi]
  have hd16 : d < 16 := by rcases hbase with h | h | h | h <;> omega
  clear hc h95 hdig hd
  have p : (2 : ℕ) ^ 64 = 18446744073709551616 := by norm_num
  rw [p] at hn ⊢
  rcases hbase with h | h | h | h <;> subst h <;>
    (split_ifs <;> first | rfl | (exfalso; omega) | (congr 1; omega))

theorem moreDigits_cons (base c : Nat) (rest : List Nat) (flag : Bool) (acc v : Nat)
    (h : moreDigits base (c :: rest) flag acc = some v) :
    (c = '_'.toNat ∧ flag = false ∧ moreDigits base rest true acc = some v) ∨
    (c ≠ '_'.toNat ∧ ∃ d, digitValue base c = some d ∧
      moreDigits base rest false (acc * base + d) = some v) := by
  rw [moreDigits] at h
  by_cases hc : c = '_'.toNat
  · rw [if_pos hc] at h
    cases flag with
    | true => simp at h
    | false =>
      simp only [Bool.false_eq_true, if_false] at h
      exact Or.inl ⟨hc, rfl, h⟩
  · rw [if_neg hc] at h
    cases hd : digitValue base c with
    | none => rw [hd] at h; cases h
    | some d =>
      rw [hd] at h
      exact Or.inr ⟨hc, d, rfl, h⟩

theorem moreDigits_mono (base : Nat) (hbase : 1 ≤ base) (rest : List Nat) :
    ∀ (flag : Bool) (acc v : Nat), moreDigits base rest flag acc = some v → acc ≤ v := by
  induction rest with
  | nil =>
    intro flag acc v h
    rw [moreDigits] at h
    cases flag with
    | true => simp at h
    | false =>
      simp only [Bool.false_eq_true, if_false, Option.some.injEq] at h
      omega
  | cons c rest ih =>
    intro flag acc v h
    rcases moreDigits_cons base c rest flag acc v h with ⟨_, _, h1⟩ | ⟨_, d, _, h1⟩
    · exact ih true acc v h1
    · have h2 := ih false (acc * base + d) v h1
      have h3 : acc * 1 ≤ acc * base := Nat.mul_le_mul_left acc hbase
      omega

theorem scanDigits_moreDigits (base : Nat)
    (hbase : base = 2 ∨ base = 8 ∨ base = 10 ∨ base = 16) (rest : List Nat) :
    ∀ (flag : Bool) (acc : Nat) (us : Bool) (v : Nat), acc < 2 ^ 64 →
      moreDigits base rest flag acc = some v →
      (v < 2 ^ 64 → ∃ us1,
        scanDigits base (maxUint64 / base + 1) (2 ^ IntSize - 1) rest acc us = .done v us1) ∧
      (2 ^ 64 ≤ v →
        scanDigits base (maxUint64 / base + 1) (2 ^ IntSize - 1) rest acc us =
          .fail (2 ^ IntSize - 1) .ErrRange) := by
  have hb1 : 1 ≤ base := by rcases hbase with h | h | h | h <;> omega
  induction rest with
  | nil =>
    intro flag acc us v hacc h
    rw [moreDigits] at h
    cases flag with
    | true => simp at h
    | false =>
      simp only [Bool.false_eq_true, if_false, Option.some.injEq] at h
      subst h
      exact ⟨fun _ => ⟨us, rfl⟩, fun h2 => absurd hacc (by omega)⟩
  | cons c rest ih =>
    intro flag acc us v hacc h
    rcases moreDigits_cons base c rest flag acc v h with ⟨hc, _, h1⟩ | ⟨_, d, hd, h1⟩
    · rw [hc, scanDigits_underscore]
      exact ih true acc true v hacc h1
    · rw [scanDigits_digit base c d rest acc us hbase hd hacc]
      have hmono := moreDigits_mono base hb1 rest false (acc * base + d) v h1
      by_cases hlt : acc * base + d < 2 ^ 64
      · rw [if_pos hlt]
        exact ih false (acc * base + d) us v hlt h1
      · rw [if_neg hlt]
        exact ⟨fun hv => absurd hv (by omega), fun _ => rfl⟩

theorem underscoreLoop_moreDigits (base : Nat) (hex : Bool) (h16 : base ≤ 10 ∨ hex = true)
    (rest : List Nat) :
    ∀ (flag : Bool) (acc v : Nat), moreDigits base rest flag acc = some v →
      underscoreLoop hex rest (if flag then '_' else '0') = true := by
  induction rest with
  | nil =>
    intro flag acc v h
    rw [moreDigits] at h
    cases flag with
    | true => simp at h
    | false => rfl
  | cons c rest ih =>
    intro flag acc v h
    rcases moreDigits_cons base c rest flag acc v h with ⟨hc, hf, h1⟩ | ⟨_, d, hd, h1⟩
    · subst hc hf
      have := ih true acc v h1
      rw [underscoreLoop]
      simpa [lower] using this
    · have := ih false (acc * base + d) v h1
      obtain ⟨hlt, hc⟩ := digitValue_cases base c d hd
      rw [underscoreLoop]
      have hdigit : ('0'.toNat ≤ c ∧ c ≤ '9'.toNat) ∨
          (hex = true ∧ 'a'.toNat ≤ lower c ∧ lower c ≤ 'f'.toNat) := by
        rcases hc with ⟨h1, h2, _⟩ | ⟨h1, h2, hd⟩ | ⟨h1, h2, hd⟩
        · exact Or.inl ⟨h1, h2⟩
        · have hx : hex = true := by
            rcases h16 with h | h
            · omega
            · exact h
          refine Or.inr ⟨hx, ?_⟩
          interval_cases c <;> decide
        · have hx : hex = true := by
            rcases h16 with h | h
            · omega
            · exact h
          refine Or.inr ⟨hx, ?_⟩
          interval_cases c <;> decide
      rw [if_pos hdigit]
      exact this

theorem ParseUint_core (c0 : Nat) (tail : List Nat) (base : Nat) (digits : List Nat)
    (hsel : (if c0 = '0'.toNat then
        if (c0 :: tail).length ≥ 3 ∧ ((c0 :: tail).get? 1).map lower = some 'b'.toNat then
          (2, (c0 :: tail).drop 2)
        else if (c0 :: tail).length ≥ 3 ∧
            ((c0 :: tail).get? 1).map lower = some 'o'.toNat then (8, (c0 :: tail).drop 2)
        else if (c0 :: tail).length ≥ 3 ∧
            ((c0 :: tail).get? 1).map lower = some 'x'.toNat then (16, (c0 :: tail).drop 2)
        else (8, (c0 :: tail).drop 1)
      else (10, c0 :: tail)) = (base, digits)) :
    ParseUint (c0 :: tail) =
      match scanDigits base (maxUint64 / base + 1) (2 ^ IntSize - 1) digits 0 false with
      | .fail val err => (val, some err)
      | .done n underscores =>
        if underscores ∧ ¬ underscoreOK (c0 :: tail) then (0, some .ErrSyntax) else (n, none) := by
  unfold ParseUint
  simp only [hsel]

theorem ParseUint_valid (c0 : Nat) (tail : List Nat) (base : Nat) (digits : List Nat) (v : Nat)
    (hsel : (if c0 = '0'.toNat then
        if (c0 :: tail).length ≥ 3 ∧ ((c0 :: tail).get? 1).map lower = some 'b'.toNat then
          (2, (c0 :: tail).drop 2)
        else if (c0 :: tail).length ≥ 3 ∧
            ((c0 :: tail).get? 1).map lower = some 'o'.toNat then (8, (c0 :: tail).drop 2)
        else if (c0 :: tail).length ≥ 3 ∧
            ((c0 :: tail).get? 1).map lower = some 'x'.toNat then (16, (c0 :: tail).drop 2)
        else (8, (c0 :: tail).drop 1)
      else (10, c0 :: tail)) = (base, digits))
    (hbase : base = 2 ∨ base = 8 ∨ base = 10 ∨ base = 16)
    (hm : moreDigits base digits false 0 = some v)
    (hu : underscoreOK (c0 :: tail) = true) :
    (v < 2 ^ 64 → ParseUint (c0 :: tail) = (v, none)) ∧
    (2 ^ 64 ≤ v → ParseUint (c0 :: tail) = (2 ^ IntSize - 1, some .ErrRange)) := by
  rw [ParseUint_core c0 tail base digits hsel]
  obtain ⟨h1, h2⟩ := scanDigits_moreDigits base hbase digits false 0 false v (by norm_num) hm
  constructor
  · intro hv
    obtain ⟨us1, hs⟩ := h1 hv
    rw [hs]
    simp [hu]
  · intro hv
    rw [h2 hv]

theorem underscoreLoop_digit (hex : Bool) (c : Nat) (cs : List Nat) (saw : Char)
    (h : 48 ≤ c ∧ c ≤ 57) :
    underscoreLoop hex (c :: cs) saw = underscoreLoop hex cs '0' := by
  have hd : ('0'.toNat ≤ c ∧ c ≤ '9'.toNat) ∨
      (hex = true ∧ 'a'.toNat ≤ lower c ∧ lower c ≤ 'f'.toNat) :=
    Or.inl h
  rw [underscoreLoop, if_pos hd]

theorem underscoreOK_plain (c0 : Nat) (tail : List Nat) (h0 : 48 ≤ c0 ∧ c0 ≤ 57)
    (hp : ∀ c1 rest1, tail = c1 :: rest1 → c0 = 48 →
      lower c1 ≠ 98 ∧ lower c1 ≠ 111 ∧ lower c1 ≠ 120) :
    underscoreOK (c0 :: tail) = underscoreLoop false tail '0' := by
  have hs : ¬ (c0 = '-'.toNat ∨ c0 = '+'.toNat) := by
    have e1 : '-'.toNat = 45 := rfl
    have e2 : '+'.toNat = 43 := rfl
    rw [e1, e2]
    omega
  unfold underscoreOK
  simp only [hs, if_false]
  cases tail with
  | nil =>
    simp only []
    rw [underscoreLoop_digit false c0 [] _ h0]
  | cons c1 rest1 =>
    simp only []
    have hne : ¬ (c0 = '0'.toNat ∧
        (lower c1 = 'b'.toNat ∨ lower c1 = 'o'.toNat ∨ lower c1 = 'x'.toNat)) := by
      rintro ⟨hc, hl⟩
      obtain ⟨a, b, c⟩ := hp c1 rest1 rfl hc
      rcases hl with h | h | h
      · exact a h
      · exact b h
      · exact c h
    rw [if_neg hne, underscoreLoop_digit false c0 _ _ h0]

theorem underscoreOK_prefixed (c1 : Nat) (rest1 : List Nat)
    (hc : lower c1 = 98 ∨ lower c1 = 111 ∨ lower c1 = 120) :
    underscoreOK (48 :: c1 :: rest1) = underscoreLoop (decide (lower c1 = 120)) rest1 '0' := by
  unfold underscoreOK
  have hs : ¬ ((48 : Nat) = '-'.toNat ∨ (48 : Nat) = '+'.toNat) := by decide
  simp only [hs, if_false]
  have hp : (48 : Nat) = '0'.toNat ∧
      (lower c1 = 'b'.toNat ∨ lower c1 = 'o'.toNat ∨ lower c1 = 'x'.toNat) := ⟨rfl, hc⟩
  rw [if_pos hp]
  rfl

theorem afterPrefix_some (base : Nat) (rest : List Nat) (v : Nat)
    (h : afterPrefix base rest = some v) :
    rest ≠ [] ∧ moreDigits base rest false 0 = some v := by
  unfold afterPrefix at h
  by_cases hr : rest = []
  · rw [if_pos hr] at h; cases h
  · rw [if_neg hr] at h; exact ⟨hr, h⟩

theorem select_prefixed (c1 : Nat) (rest1 : List Nat) (hne : rest1 ≠ []) (base : Nat)
    (hb : (lower c1 = 98 ∧ base = 2) ∨ (lower c1 = 111 ∧ base = 8) ∨
      (lower c1 = 120 ∧ base = 16)) :
    (if (48 : Nat) = '0'.toNat then
        if (48 :: c1 :: rest1).length ≥ 3 ∧
            ((48 :: c1 :: rest1).get? 1).map lower = some 'b'.toNat then
          (2, (48 :: c1 :: rest1).drop 2)
        else if (48 :: c1 :: rest1).length ≥ 3 ∧
            ((48 :: c1 :: rest1).get? 1).map lower = some 'o'.toNat then
          (8, (48 :: c1 :: rest1).drop 2)
        else if (48 :: c1 :: rest1).length ≥ 3 ∧
            ((48 :: c1 :: rest1).get? 1).map lower = some 'x'.toNat then
          (16, (48 :: c1 :: rest1).drop 2)
        else (8, (48 :: c1 :: rest1).drop 1)
      else (10, 48 :: c1 :: rest1)) = (base, rest1) := by
  have hlen : (48 :: c1 :: rest1).length ≥ 3 := by
    cases rest1 with
    | nil => exact absurd rfl hne
    | cons _ _ => simp
  have e0 : '0'.toNat = 48 := rfl
  have eb : 'b'.toNat = 98 := rfl
  have eo : 'o'.toNat = 111 := rfl
  have ex : 'x'.toNat = 120 := rfl
  rw [e0, eb, eo, ex]
  simp only [hlen, true_and, if_true, List.get?_cons_succ, List.get?_cons_zero, Option.map_some',
    Option.some.injEq, List.drop_succ_cons, List.drop_zero]
  rcases hb with ⟨h, rfl⟩ | ⟨h, rfl⟩ | ⟨h, rfl⟩ <;> simp [h]

theorem select_plain (c0 : Nat) (tail : List Nat) (h0 : c0 = 48)
    (hp : ∀ c1 rest1, tail = c1 :: rest1 →
      lower c1 ≠ 98 ∧ lower c1 ≠ 111 ∧ lower c1 ≠ 120) :
    (if c0 = '0'.toNat then
        if (c0 :: tail).length ≥ 3 ∧ ((c0 :: tail).get? 1).map lower = some 'b'.toNat then
          (2, (c0 :: tail).drop 2)
        else if (c0 :: tail).length ≥ 3 ∧
            ((c0 :: tail).get? 1).map lower = some 'o'.toNat then (8, (c0 :: tail).drop 2)
        else if (c0 :: tail).length ≥ 3 ∧
            ((c0 :: tail).get? 1).map lower = some 'x'.toNat then (16, (c0 :: tail).drop 2)
        else (8, (c0 :: tail).drop 1)
      else (10, c0 :: tail)) = (8, tail) := by
  have e0 : '0'.toNat = 48 := rfl
  have eb : 'b'.toNat = 98 := rfl
  have eo : 'o'.toNat = 111 := rfl
  have ex : 'x'.toNat = 120 := rfl
  rw [e0, eb, eo, ex, if_pos h0]
  cases tail with
  | nil => simp
  | cons c1 rest1 =>
    obtain ⟨a, b, c⟩ := hp c1 rest1 rfl
    simp [a, b, c]

theorem lower_octal_start (base c1 : Nat) (rest1 : List Nat) (v : Nat) (hbase : base ≤ 10)
    (h : moreDigits base (c1 :: rest1) false 0 = some v) :
    lower c1 ≠ 98 ∧ lower c1 ≠ 111 ∧ lower c1 ≠ 120 := by
  rcases moreDigits_cons base c1 rest1 false 0 v h with ⟨hc, _, _⟩ | ⟨_, d, hd, _⟩
  · subst hc
    decide
  · obtain ⟨hlt, hc⟩ := digitValue_cases base c1 d hd
    rcases hc with ⟨h1, h2, _⟩ | ⟨h1, h2, hd⟩ | ⟨h1, h2, hd⟩
    · interval_cases c1 <;> decide
    · omega
    · omega

theorem ParseUint_intLit (cs : List Nat) (v : Nat) (h : intLitUnits cs = some v) :
    (∃ c0 tail, cs = c0 :: tail ∧ 48 ≤ c0 ∧ c0 ≤ 57) ∧
    (v < 2 ^ 64 → ParseUint cs = (v, none)) ∧
    (2 ^ 64 ≤ v → ParseUint cs = (2 ^ IntSize - 1, some .ErrRange)) := by
  have e0 : '0'.toNat = 48 := rfl
  have e1 : '1'.toNat = 49 := rfl
  have e9 : '9'.toNat = 57 := rfl
  have eb : 'b'.toNat = 98 := rfl
  have eB : 'B'.toNat = 66 := rfl
  have eo : 'o'.toNat = 111 := rfl
  have eO : 'O'.toNat = 79 := rfl
  have ex : 'x'.toNat = 120 := rfl
  have eX : 'X'.toNat = 88 := rfl
  cases cs with
  | nil => simp [intLitUnits] at h
  | cons c0 tail =>
    unfold intLitUnits at h
    rw [e0, e1, e9, eb, eB, eo, eO, ex, eX] at h
    dsimp only at h
    by_cases h0 : c0 = 48
    · subst h0
      refine ⟨⟨48, tail, rfl, by omega, by omega⟩, ?_⟩
      rw [if_pos rfl] at h
      cases tail with
      | nil =>
        simp only [Option.some.injEq] at h
        subst h
        exact ⟨fun _ => by decide, fun hv => absurd hv (by norm_num)⟩
      | cons c1 rest1 =>
        simp only [] at h
        by_cases hb : c1 = 98 ∨ c1 = 66
        · rw [if_pos hb] at h
          obtain ⟨hne, hm⟩ := afterPrefix_some 2 rest1 v h
          have hl : lower c1 = 98 := by rcases hb with h | h <;> subst h <;> rfl
          exact ParseUint_valid 48 (c1 :: rest1) 2 rest1 v
            (select_prefixed c1 rest1 hne 2 (Or.inl ⟨hl, rfl⟩)) (by omega) hm
            (by
              rw [underscoreOK_prefixed c1 rest1 (Or.inl hl)]
              exact underscoreLoop_moreDigits 2 _ (Or.inl (by omega)) rest1 false 0 v hm)
        · rw [if_neg hb] at h
          by_cases ho : c1 = 111 ∨ c1 = 79
          · rw [if_pos ho] at h
            obtain ⟨hne, hm⟩ := afterPrefix_some 8 rest1 v h
            have hl : lower c1 = 111 := by rcases ho with h | h <;> subst h <;> rfl
            exact ParseUint_valid 48 (c1 :: rest1) 8 rest1 v
              (select_prefixed c1 rest1 hne 8 (Or.inr (Or.inl ⟨hl, rfl⟩))) (by omega) hm
              (by
                rw [underscoreOK_prefixed c1 rest1 (Or.inr (Or.inl hl))]
                exact underscoreLoop_moreDigits 8 _ (Or.inl (by omega)) rest1 false 0 v hm)
          · rw [if_neg ho] at h
            by_cases hx : c1 = 120 ∨ c1 = 88
            · rw [if_pos hx] at h
              obtain ⟨hne, hm⟩ := afterPrefix_some 16 rest1 v h
              have hl : lower c1 = 120 := by rcases hx with h | h <;> subst h <;> rfl
              exact ParseUint_valid 48 (c1 :: rest1) 16 rest1 v
                (select_prefixed c1 rest1 hne 16 (Or.inr (Or.inr ⟨hl, rfl⟩))) (by omega) hm
                (by
                  rw [underscoreOK_prefixed c1 rest1 (Or.inr (Or.inr hl))]
                  exact underscoreLoop_moreDigits 16 _ (Or.inr (by simp [hl])) rest1 false 0 v
                    hm)
            · rw [if_neg hx] at h
              obtain ⟨_, hm⟩ := afterPrefix_some 8 (c1 :: rest1) v h
              have hlow := lower_octal_start 8 c1 rest1 v (by omega) hm
              exact ParseUint_valid 48 (c1 :: rest1) 8 (c1 :: rest1) v
                (select_plain 48 (c1 :: rest1) rfl
                  (fun a b hab => by cases hab; exact hlow)) (by omega) hm
                (by
                  rw [underscoreOK_plain 48 (c1 :: rest1) (by omega)
                    (fun a b hab _ => by cases hab; exact hlow)]
                  exact underscoreLoop_moreDigits 8 false (Or.inl (by omega)) _ false 0 v hm)
    · rw [if_neg h0] at h
      by_cases h19 : 49 ≤ c0 ∧ c0 ≤ 57
      · rw [if_pos h19] at h
        refine ⟨⟨c0, tail, rfl, by omega, h19.2⟩, ?_⟩
        have hd : digitValue 10 c0 = some (c0 - 48) := by
          obtain ⟨a, b⟩ := h19
          interval_cases c0 <;> rfl
        have hm : moreDigits 10 (c0 :: tail) false 0 = some v := by
          rw [moreDigits]
          have h95 : c0 ≠ '_'.toNat := by
            have : '_'.toNat = 95 := rfl
            omega
          rw [if_neg h95, hd]
          simpa using h
        have hsel : (if c0 = '0'.toNat then
            if (c0 :: tail).length ≥ 3 ∧
                ((c0 :: tail).get? 1).map lower = some 'b'.toNat then
              (2, (c0 :: tail).drop 2)
            else if (c0 :: tail).length ≥ 3 ∧
                ((c0 :: tail).get? 1).map lower = some 'o'.toNat then
              (8, (c0 :: tail).drop 2)
            else if (c0 :: tail).length ≥ 3 ∧
                ((c0 :: tail).get? 1).map lower = some 'x'.toNat then
              (16, (c0 :: tail).drop 2)
            else (8, (c0 :: tail).drop 1)
          else (10, c0 :: tail)) = (10, c0 :: tail) := by
          rw [e0, if_neg h0]
        exact ParseUint_valid c0 tail 10 (c0 :: tail) v hsel (by omega) hm
          (by
            rw [underscoreOK_plain c0 tail (by omega) (fun _ _ _ hc => absurd hc h0)]
            exact underscoreLoop_moreDigits 10 false (Or.inl (by omega)) tail false (c0 - 48) v h)
      · rw [if_neg h19] at h
        cases h

theorem ParseInt_intLit (text : String) (v : Nat) (h : intLitValue text = some v) :
    (v < 2 ^ 63 → ParseInt text = .ok (v : Int)) ∧
    (2 ^ 63 ≤ v → ParseInt text = .error (NumError text .ErrRange)) := by
  unfold intLitValue at h
  obtain ⟨⟨c0, tail, hcs, h48, h57⟩, hlt, hge⟩ :=
    ParseUint_intLit (text.toList.map Char.toNat) v h
  have hsign : ¬ (c0 = '+'.toNat ∨ c0 = '-'.toNat) := by
    have e1 : '-'.toNat = 45 := rfl
    have e2 : '+'.toNat = 43 := rfl
    rw [e1, e2]
    omega
  have hneg : (decide (c0 = '-'.toNat)) = false := by
    have e1 : '-'.toNat = 45 := rfl
    rw [e1]
    simp
    omega
  rw [hcs] at hlt hge
  have hi : IntSize = 64 := rfl
  unfold ParseInt
  rw [hcs]
  simp only [hsign, if_false, hneg]
  by_cases hv : v < 2 ^ 64
  · rw [hlt hv]
    simp only [hi]
    constructor
    · intro h63
      have p : (2 : ℕ) ^ 63 = 9223372036854775808 := by norm_num
      rw [p] at h63
      simp [h63]
    · intro h63
      have p : (2 : ℕ) ^ 63 = 9223372036854775808 := by norm_num
      rw [p] at h63
      simp [h63]
  · rw [hge (by omega)]
    simp only [hi]
    constructor
    · intro h63
      exfalso
      have : (2 : ℕ) ^ 63 < 2 ^ 64 := by norm_num
      omega
    · intro _
      simp

end

/-- C15 (as stated, refuted).  The text `9223372036854775808` is a valid integer
literal, of value 2^63, and for it `parseBasicLit` returns an error node with the
range diagnostic of `ParseInt`, not a lit node. -/
theorem parseBasicLit_int_out_of_range :
    intLitValue "9223372036854775808" = some 9223372036854775808 ∧
    parseBasicLit rejectFloat ⟨Token.INT, "9223372036854775808"⟩ =
      .obj [("tag", .str "error"),
        ("val", .str
          "strconv.ParseInt: parsing \"9223372036854775808\": value out of range")] := by
  exact ⟨by decide, rfl⟩

/-- C15 (amended).  For a valid integer literal text (decimal, or with a `0x`, `0o`,
`0b` or `0` prefix, with digit-separating underscores) whose value is below 2^63,
`parseBasicLit` on an INT literal with that text returns the lit node of kind "int"
whose val is the value the language assigns to the text; for a valid text whose value
is 2^63 or more it returns the error node with the range diagnostic. -/
theorem parseBasicLit_int (ParseFloat : String → Except String Float64)
    (text : String) (v : Nat) (h : intLitValue text = some v) :
    (v < 2 ^ 63 →
      parseBasicLit ParseFloat ⟨Token.INT, text⟩ =
        .obj [("tag", .str "lit"), ("kind", .str "int"), ("val", .int (v : Int))]) ∧
    (2 ^ 63 ≤ v →
      parseBasicLit ParseFloat ⟨Token.INT, text⟩ =
        .obj [("tag", .str "error"),
          ("val", .str ("strconv.ParseInt: parsing " ++ strconv.Quote text ++
            ": value out of range"))]) := by
  obtain ⟨h1, h2⟩ := ParseInt_intLit text v h
  constructor
  · intro hv
    unfold parseBasicLit
    simp only [if_true, h1 hv]
  · intro hv
    unfold parseBasicLit
    have e : ": " ++ "value out of range" = ": value out of range" := by decide
    simp only [if_true, h2 hv, strconv.NumError, strconv.Err.Error, String.append_assoc, e]

/-- C15 (amended), at the hexadecimal literal `0x1F`. -/
theorem parseBasicLit_int_witness :
    intLitValue "0x1F" = some 31 ∧ 31 < 2 ^ 63 ∧
    parseBasicLit rejectFloat ⟨Token.INT, "0x1F"⟩ =
      .obj [("tag", .str "lit"), ("kind", .str "int"), ("val", .int ((31 : Nat) : Int))] :=
  ⟨by decide, by norm_num,
    (parseBasicLit_int rejectFloat "0x1F" 31 (by decide)).1 (by norm_num)⟩

end GoS1
